import Mathlib

/-!
Verification development for the libpdf PDF-extraction library.

The Python source is shallowly embedded in Lean:

* Python `float` values are modelled as exact rationals.  To keep every
  definition executable by kernel reduction, a dedicated structure `Q`
  (numerator, positive denominator, no normalisation) is used instead of
  Mathlib's `Rat`, whose arithmetic is `@[irreducible]`.  Comparisons and
  arithmetic are defined by cross multiplication; a homomorphism `Q.toRat`
  transfers order facts from `ℚ`.
* Python lists become `List`, dictionaries (which preserve insertion order)
  become ordered association lists.
* Fallible code returns `Except PyErr`.
* Loops that mutate a list while iterating are embedded index by index with
  the exact iterator semantics of CPython.
-/

/-- Exact rational with a positive denominator, used to embed Python floats.
Values are not normalised; equality of Python floats is embedded as the
value equality `Q.beq`, never as structural equality. -/
structure Q where
  num : Int
  den : Int
  pos : 0 < den

instance : DecidableEq Q := fun a b =>
  decidable_of_iff (a.num = b.num ∧ a.den = b.den) (by
    constructor
    · rintro ⟨h1, h2⟩
      cases a; cases b
      cases h1; cases h2; rfl
    · intro h; cases h; exact ⟨rfl, rfl⟩)

/-- Embed an integer as a `Q` value. -/
def Q.ofInt (n : Int) : Q := ⟨n, 1, by decide⟩

/-- Embed a natural number as a `Q` value. -/
def Q.ofNat (n : Nat) : Q := ⟨(n : Int), 1, by decide⟩

/-- Rational literal `n / d` for a positive denominator `d`. -/
def Q.mk' (n : Int) (d : Int) (h : 0 < d := by decide) : Q := ⟨n, d, h⟩

/-- Python `a <= b` on floats. -/
def Q.le (a b : Q) : Bool := decide (a.num * b.den ≤ b.num * a.den)

/-- Python `a < b` on floats. -/
def Q.lt (a b : Q) : Bool := decide (a.num * b.den < b.num * a.den)

/-- Python `a == b` on floats (value equality). -/
def Q.beq (a b : Q) : Bool := decide (a.num * b.den = b.num * a.den)

/-- Python `a + b` on floats (exact in the embedding). -/
def Q.add (a b : Q) : Q :=
  ⟨a.num * b.den + b.num * a.den, a.den * b.den, Int.mul_pos a.pos b.pos⟩

/-- Python `a - b` on floats (exact in the embedding). -/
def Q.sub (a b : Q) : Q :=
  ⟨a.num * b.den - b.num * a.den, a.den * b.den, Int.mul_pos a.pos b.pos⟩

/-- Python `a * b` on floats (exact in the embedding). -/
def Q.mul (a b : Q) : Q := ⟨a.num * b.num, a.den * b.den, Int.mul_pos a.pos b.pos⟩

/-- Python `a / b` on floats.  Division by zero raises in Python and is never
reached by the embedded code on the inputs considered; the zero case returns
the junk value `0` to keep the function total. -/
def Q.div (a b : Q) : Q :=
  if h : 0 < a.den * b.num then ⟨a.num * b.den, a.den * b.num, h⟩
  else if h' : a.den * b.num < 0 then
    ⟨-(a.num * b.den), -(a.den * b.num), by omega⟩
  else Q.ofInt 0

/-- Python `abs` on floats. -/
def Q.abs (a : Q) : Q := ⟨if a.num < 0 then -a.num else a.num, a.den, a.pos⟩

/-- Python `min` on two floats (returns the first argument on ties). -/
def Q.min (a b : Q) : Q := if Q.le a b then a else b

/-- Python `max` on two floats (returns the first argument on ties). -/
def Q.max (a b : Q) : Q := if Q.le b a then a else b

/-- Value of a `Q` as a Mathlib rational, used to transfer order lemmas. -/
def Q.toRat (a : Q) : Rat := (a.num : Rat) / (a.den : Rat)

/-! ## Claim C3: UID generation (`libpdf/models/element.py`, `Element.uid`) -/

/-- A chapter with its identifier and the back reference `b_chapter` to the
parent chapter: `root` stands for a chapter whose `b_chapter` is `None`,
`sub` for one with a parent chapter. -/
inductive ChapterU where
  | root (id_ : String)
  | sub (id_ : String) (parent : ChapterU)

/-- The identifier of a chapter. -/
def ChapterU.id_ : ChapterU → String
  | .root i => i
  | .sub i _ => i

/-- An element with its identifier `id_` and the `b_chapter` back reference. -/
structure ElemU where
  id_ : String
  bChapter : Option ChapterU

/-- The `uid_prefix` computed by the `while curr_chapter.b_chapter` loop of
`Element.uid`: starting from the parent chapter, ancestor identifiers are
prepended with `/` separators.  The loop is embedded as structural recursion
on the parent chain. -/
def ChapterU.uidPrefix : ChapterU → String
  | .root i => i
  | .sub i p => ChapterU.uidPrefix p ++ "/" ++ i

/-- `Element.uid`: if the element has a parent chapter the uid is the ancestor
prefix followed by `/` and the element's own identifier, otherwise it is the
element's identifier alone. -/
def ElemU.uid (e : ElemU) : String :=
  match e.bChapter with
  | some c => ChapterU.uidPrefix c ++ "/" ++ e.id_
  | none => e.id_

/-- Specification side of C3: the chain of ancestor-chapter identifiers of a
chapter, ordered from outermost to innermost (the chapter itself included). -/
def ChapterU.chain : ChapterU → List String
  | .root i => [i]
  | .sub i p => ChapterU.chain p ++ [i]

/-- Specification side of C3: the ancestor chapters of an element, outermost
first (empty when the element sits at root level). -/
def ElemU.ancestors (e : ElemU) : List String :=
  match e.bChapter with
  | some c => ChapterU.chain c
  | none => []

/-- Specification side of C3: `/`-joining of a list of identifiers. -/
def slashJoin : List String → String
  | [] => ""
  | [x] => x
  | x :: xs => x ++ "/" ++ slashJoin xs

/-! ## Claim C4: figure filter (`libpdf/extract.py`, `check_and_filter_figures`) -/

/-- A pdfplumber figure dictionary: the keys read by
`check_and_filter_figures`.  `width` and `height` are separate dictionary
entries and are not recomputed when coordinates are clamped. -/
structure Fig where
  x0 : Q
  y0 : Q
  x1 : Q
  y1 : Q
  width : Q
  height : Q
  deriving DecidableEq

/-- Python `==` on figure dictionaries: value equality of all entries
(floats compared by value). -/
def Fig.beq (a b : Fig) : Bool :=
  Q.beq a.x0 b.x0 && Q.beq a.y0 b.y0 && Q.beq a.x1 b.x1 && Q.beq a.y1 b.y1 &&
    Q.beq a.width b.width && Q.beq a.height b.height

/-- Python `x in list` for figure dictionaries. -/
def figMem (x : Fig) : List Fig → Bool
  | [] => false
  | y :: ys => Fig.beq y x || figMem x ys

/-- Python `list.remove(x)`: removes the first element equal to `x` (the
call sites guard membership, so the not-found error cannot occur). -/
def figRemove (x : Fig) : List Fig → List Fig
  | [] => []
  | y :: ys => if Fig.beq y x then ys else y :: figRemove x ys

/-- `itertools.combinations(l, 2)`: ordered pairs over a snapshot of `l`. -/
def combos : List Fig → List (Fig × Fig)
  | [] => []
  | x :: xs => xs.map (fun y => (x, y)) ++ combos xs

/-- Negative-coordinate clamping of `check_and_filter_figures`: a figure with
any negative coordinate has each negative coordinate set to `0`; `width` and
`height` entries are left unchanged, exactly as in the source. -/
def clampFig (f : Fig) : Fig :=
  if Q.le (Q.ofInt 0) f.x0 && Q.le (Q.ofInt 0) f.y0 && Q.le (Q.ofInt 0) f.x1
      && Q.le (Q.ofInt 0) f.y1 then
    f
  else
    { f with
      x0 := if Q.lt f.x0 (Q.ofInt 0) then Q.ofInt 0 else f.x0
      y0 := if Q.lt f.y0 (Q.ofInt 0) then Q.ofInt 0 else f.y0
      x1 := if Q.lt f.x1 (Q.ofInt 0) then Q.ofInt 0 else f.x1
      y1 := if Q.lt f.y1 (Q.ofInt 0) then Q.ofInt 0 else f.y1 }

/-- The containment test of `check_and_filter_figures`: `fig0` fully contains
`fig1` (non-strict on all sides). -/
def figContains (fig0 fig1 : Fig) : Bool :=
  Q.le fig0.x0 fig1.x0 && Q.le fig0.y0 fig1.y0 && Q.le fig1.x1 fig0.x1 &&
    Q.le fig1.y1 fig0.y1

/-- The overlap test of `check_and_filter_figures`: negation of the four
separation conditions. -/
def figOverlaps (fig0 fig1 : Fig) : Bool :=
  !(Q.lt fig1.x1 fig0.x0 || Q.lt fig0.x1 fig1.x0 || Q.lt fig1.y1 fig0.y0 ||
    Q.lt fig0.y1 fig1.y0)

/-- Pass 3 of `check_and_filter_figures`: for every snapshot pair, if the
first fully contains the second, the second is removed if still present. -/
def figPass3 (cur : List Fig) : List (Fig × Fig) → List Fig
  | [] => cur
  | (fig0, fig1) :: rest =>
    if figContains fig0 fig1 then
      figPass3 (if figMem fig1 cur then figRemove fig1 cur else cur) rest
    else
      figPass3 cur rest

/-- Pass 4 of `check_and_filter_figures`: for every snapshot pair that
overlaps without the first containing the second, the one with the smaller
`width * height` is removed if still present; on ties (`<=`) the first of the
pair is removed. -/
def figPass4 (cur : List Fig) : List (Fig × Fig) → List Fig
  | [] => cur
  | (fig0, fig1) :: rest =>
    if figOverlaps fig0 fig1 && !figContains fig0 fig1 then
      if Q.le (Q.mul fig0.width fig0.height) (Q.mul fig1.width fig1.height) then
        figPass4 (if figMem fig0 cur then figRemove fig0 cur else cur) rest
      else
        figPass4 (if figMem fig1 cur then figRemove fig1 cur else cur) rest
    else
      figPass4 cur rest

/-- `check_and_filter_figures`: size filter, clamping of negative coordinates,
removal of contained figures, then arbitration of partially overlapping
figures by area. -/
def checkAndFilterFigures (figuresList : List Fig) : List Fig :=
  let filtered :=
    figuresList.filter fun f =>
      Q.lt (Q.ofInt 15) f.height && Q.lt (Q.ofInt 15) f.width
  let clamped := filtered.map clampFig
  let afterContain := figPass3 clamped (combos clamped)
  figPass4 afterContain (combos afterContain)

/-- Concrete figure for the C4 counterexample: box `(0, 0, 20, 20)`. -/
def figC4a : Fig :=
  ⟨Q.ofInt 0, Q.ofInt 0, Q.ofInt 20, Q.ofInt 20, Q.ofInt 20, Q.ofInt 20⟩

/-- Concrete figure for the C4 counterexample: box `(10, 10, 30, 30)`,
partially overlapping `figC4a` with the same area. -/
def figC4b : Fig :=
  ⟨Q.ofInt 10, Q.ofInt 10, Q.ofInt 30, Q.ofInt 30, Q.ofInt 20, Q.ofInt 20⟩

/-! ## Claim C7: element assembly sort (`libpdf/process.py`, `merge_all_elements`) -/

/-- The data of an element read by the sort key of `merge_all_elements`:
`position.page.number`, `position.page.height` and `position.y0`, plus a tag
standing for the object identity (used only to state stability). -/
structure Elem7 where
  page : Nat
  height : Q
  y0 : Q
  tag : Nat
  deriving DecidableEq

/-- The comparison underlying Python's `list.sort` with key
`(page.number, page.height - y0)`: lexicographic tuple comparison with float
values compared by value. -/
def elemKeyLe (a b : Elem7) : Bool :=
  Nat.blt a.page b.page ||
    (Nat.beq a.page b.page && Q.le (Q.sub a.height a.y0) (Q.sub b.height b.y0))

/-- `merge_all_elements`: the variadic lists are appended in argument order
(the `len(element) > 0` guard has no effect) and the result is sorted stably
by `(page.number, page.height - y0)`.  Python's Timsort is embedded as the
stable `List.mergeSort`. -/
def mergeAllElements (figures tables paragraphs chapters : List Elem7) :
    List Elem7 :=
  (figures ++ tables ++ paragraphs ++ chapters).mergeSort elemKeyLe

/-! ## Claims C5, C9, C10: smart header/footer detection
(`libpdf/extract.py`, `smart_page_crop_header_footer` and
`check_false_positive_header_footer`).

Float parameters (`0.15`, `0.3`, `0.8`, `0.05`, `0.2`) are embedded as the
exact decimal rationals they denote; `float(f'{y:.4f}')` is embedded as
rounding the rational value to four decimal places with ties to even. -/

/-- The position data of an element used by header/footer detection:
`position.page.number`, `position.y0`, `position.y1`. -/
structure EPos where
  page : Nat
  y0 : Q
  y1 : Q
  deriving DecidableEq

/-- A document element.  Python compares `Element` objects by identity
(`ModelBase` defines no `__eq__`), embedded by a unique `tag`. -/
structure ElemHF where
  tag : Nat
  pos : EPos
  deriving DecidableEq

/-- The data of the pdfplumber `pdf` object that the detector reads:
`len(pdf.pages)` and `float(pdf.pages[0].mediabox[3])`. -/
structure PdfHF where
  pageCount : Nat
  pageHeight : Q

/-- `SMART_PAGE_CROP_REL_MARGINS['top'] = 0.2`. -/
def SMART_TOP : Q := Q.mk' 1 5

/-- `SMART_PAGE_CROP_REL_MARGINS['bottom'] = 0.2`. -/
def SMART_BOTTOM : Q := Q.mk' 1 5

/-- `HEADER_FOOTER_OCCURRENCE_PERCENTAGE = 0.3`. -/
def HF_OCCURRENCE : Q := Q.mk' 3 10

/-- `PAGES_MISSING_HEADER_OR_FOOTER_PERCENTAGE = 0.15`. -/
def PAGES_MISSING : Q := Q.mk' 3 20

/-- `HEADER_OR_FOOTER_CONTINUOUS_PERCENTAGE = 0.8`. -/
def HF_CONTINUOUS : Q := Q.mk' 4 5

/-- `UNIQUE_HEADER_OR_FOOTER_ELEMENTS_PERCENTAGE = 0.05`. -/
def HF_UNIQUE : Q := Q.mk' 1 20

/-- Append a value under a key of an insertion-ordered dictionary, creating
the key at the end when absent (CPython dict semantics). -/
def dictAdd (d : List (Nat × List ElemHF)) (k : Nat) (e : ElemHF) :
    List (Nat × List ElemHF) :=
  match d with
  | [] => [(k, [e])]
  | (k', v) :: rest =>
    if k' = k then (k', v ++ [e]) :: rest else (k', v) :: dictAdd rest k e

/-- `elements_page_dict`: elements grouped by `position.page.number`,
pages in order of first appearance. -/
def elementsPageDict (l : List ElemHF) : List (Nat × List ElemHF) :=
  l.foldl (fun d e => dictAdd d e.pos.page e) []

/-- The concatenation of the value lists of the page dictionary, in
dictionary order: the iteration order of the two nested `for` loops. -/
def dictFlat : List (Nat × List ElemHF) → List ElemHF
  | [] => []
  | kv :: rest => kv.2 ++ dictFlat rest

/-- Round an integer fraction `n / d` (`d > 0`) to the nearest integer with
ties to even, as Python float formatting does. -/
def iroundHalfEven (n d : Int) : Int :=
  let q := Int.fdiv n d
  let r := n - d * q
  if 2 * r < d then q
  else if d < 2 * r then q + 1
  else if q % 2 = 0 then q else q + 1

/-- `float(f'{y:.4f}')`: the value rounded to four decimal places. -/
def round4 (a : Q) : Q :=
  ⟨iroundHalfEven (a.num * 10000) a.den, 10000, by decide⟩

/-- The per-page minimum of the rounded `y0` values
(`element_low_pos_dict` entry of one page; page groups are never empty,
the `[]` case is unreachable). -/
def lowestPos : List ElemHF → Q
  | [] => Q.ofInt 0
  | e :: rest =>
    (e :: rest).foldl (fun m x => Q.min m (round4 x.pos.y0)) (round4 e.pos.y0)

/-- `element_low_pos_dict`: for each page (in insertion order) the lowest
rounded `y0` of its candidates. -/
def elementLowPosDict (l : List ElemHF) : List (Nat × Q) :=
  (elementsPageDict l).map (fun kv => (kv.1, lowestPos kv.2))

/-- Minimum of a list of float values (`min` over the value set; the `[]`
case is unreachable at the call site). -/
def qMinList : List Q → Q
  | [] => Q.ofInt 0
  | x :: xs => xs.foldl Q.min x

/-- Representatives of the distinct float values of a list (`set(...)`). -/
def qDedup : List Q → List Q
  | [] => []
  | x :: xs =>
    let r := qDedup xs
    if r.any (fun y => Q.beq x y) then r else x :: r

/-- `len(set(...))` for a list of float values. -/
def qDistinctCount (l : List Q) : Nat := (qDedup l).length

/-- CPython semantics of `for idx, element in enumerate(lst): if p(element):
del lst[idx]`: after a deletion the iterator cursor still advances, so the
element shifted into the deleted slot is skipped.  Embedded index by index;
`fuel` only bounds the iteration (`fuel = length + 1` always suffices since
the cursor grows by one per step and the list never grows). -/
def pyDelScan (p : ElemHF → Bool) : Nat → List ElemHF → Nat → List ElemHF
  | 0, l, _ => l
  | fuel + 1, l, i =>
    if h : i < l.length then
      if p (l.get ⟨i, h⟩) then pyDelScan p fuel (l.eraseIdx i) (i + 1)
      else pyDelScan p fuel l (i + 1)
    else l

/-- The deletion loop of `check_false_positive_header_footer`: delete the
elements whose rounded `y0` equals `low` (with the iterator-skip semantics
of `pyDelScan`). -/
def delAtMin (l : List ElemHF) (low : Q) : List ElemHF :=
  pyDelScan (fun e => Q.beq (round4 e.pos.y0) low) (l.length + 1) l 0

/-- Python `sorted` on a list of page numbers (insertion sort). -/
def insertNat (x : Nat) : List Nat → List Nat
  | [] => [x]
  | y :: ys => if x < y then x :: y :: ys else y :: insertNat x ys

/-- Python `sorted` on a list of page numbers. -/
def pySortedNat : List Nat → List Nat
  | [] => []
  | x :: xs => insertNat x (pySortedNat xs)

/-- `check_false_positive_header_footer`.  The recursion terminates because
every recursive call is on a strictly shorter list; it is embedded with a
fuel argument (`length + 1` at the entry point, which never runs out).  The
`[]` case returns `[]`: the Python function is only called on nonempty
lists. -/
def checkFalsePositiveHF (pageCount : Nat) : Nat → List ElemHF → List ElemHF
  | 0, l => l
  | fuel + 1, l =>
    if l = [] then l
    else
      let lowDict := elementLowPosDict l
      let startPage : Int := ((lowDict.headD (0, Q.ofInt 0)).1 : Int)
      let endPage : Int := ((lowDict.getLastD (0, Q.ofInt 0)).1 : Int)
      let pageBreaks : Int := endPage - startPage + 1 - lowDict.length
      let headerLowPos := qMinList (lowDict.map (fun kv => kv.2))
      if Q.le (Q.div (Q.ofInt pageBreaks) (Q.ofInt (endPage - startPage + 1)))
          PAGES_MISSING then
        if qDistinctCount (lowDict.map (fun kv => kv.2)) ≠ 1 then
          let continuousPages :=
            (lowDict.filter (fun kv => Q.beq kv.2 headerLowPos)).map
              (fun kv => kv.1)
          let sortedPages := pySortedNat continuousPages
          let span : Int :=
            (sortedPages.getLastD 0 : Int) - (sortedPages.headD 0 : Int) + 1
          if Q.lt (Q.ofNat sortedPages.length)
                (Q.mul (Q.ofInt span) HF_CONTINUOUS)
              && Q.lt (Q.max (Q.ofInt 1) (Q.mul HF_UNIQUE (Q.ofNat pageCount)))
                  (Q.ofNat (qDistinctCount (lowDict.map (fun kv => kv.2)))) then
            let l2 := delAtMin l headerLowPos
            if l2 ≠ [] then checkFalsePositiveHF pageCount fuel l2 else l2
          else l
        else if l.length = 1 then [] else l
      else
        let l2 := delAtMin l headerLowPos
        if l2 ≠ [] then checkFalsePositiveHF pageCount fuel l2 else l2

/-- Entry point of `check_false_positive_header_footer` with sufficient
fuel. -/
def checkFalsePositiveHFTop (pageCount : Nat) (l : List ElemHF) : List ElemHF :=
  checkFalsePositiveHF pageCount (l.length + 1) l

/-- The similarity test of phase 1: `abs(dy0) < 1 and abs(dy1) < 1`. -/
def similarYBand (a x : ElemHF) : Bool :=
  Q.lt (Q.abs (Q.sub a.pos.y0 x.pos.y0)) (Q.ofInt 1) &&
    Q.lt (Q.abs (Q.sub a.pos.y1 x.pos.y1)) (Q.ofInt 1)

/-- The `page_cnt` of phase 1: over all pages, `min(1, count of elements on
the page similar to `e`)` summed. -/
def pageCountFor (d : List (Nat × List ElemHF)) (e : ElemHF) : Nat :=
  d.foldl (fun acc kv => acc + Nat.min (kv.2.countP (fun x => similarYBand e x)) 1) 0

/-- Phase-1 header candidates: elements with `y0` inside the header band
whose occurrence count reaches `HF_OCCURRENCE * page_count`, in dictionary
iteration order. -/
def headerCandidates (pdf : PdfHF) (d : List (Nat × List ElemHF)) :
    List ElemHF :=
  let headerBottom := Q.mul (Q.sub (Q.ofInt 1) SMART_TOP) pdf.pageHeight
  (dictFlat d).filter (fun e =>
    let cnt := if Q.le headerBottom e.pos.y0 then pageCountFor d e else 0
    Q.le (Q.mul HF_OCCURRENCE (Q.ofNat pdf.pageCount)) (Q.ofNat cnt))

/-- Phase-1 footer candidates: elements with `y1` inside the footer band
whose occurrence count reaches `HF_OCCURRENCE * page_count`. -/
def footerCandidates (pdf : PdfHF) (d : List (Nat × List ElemHF)) :
    List ElemHF :=
  let footerTop := Q.mul SMART_BOTTOM pdf.pageHeight
  (dictFlat d).filter (fun e =>
    let cnt := if Q.le e.pos.y1 footerTop then pageCountFor d e else 0
    Q.le (Q.mul HF_OCCURRENCE (Q.ofNat pdf.pageCount)) (Q.ofNat cnt))

/-- Python `element in lst` for elements (identity semantics via tags). -/
def elMem (x : ElemHF) : List ElemHF → Bool
  | [] => false
  | y :: ys => decide (y = x) || elMem x ys

/-- `smart_page_crop_header_footer`: phase-1 candidate collection for the
header band, phase-2 false-positive rejection, removal from the element
list; then the same for the footer band (candidates are drawn from the
dictionary built from the original list, as in the source). -/
def smartPageCropHF (pdf : PdfHF) (l : List ElemHF) : List ElemHF :=
  let d := elementsPageDict l
  let headerCands := headerCandidates pdf d
  let realHeader :=
    if headerCands ≠ [] then checkFalsePositiveHFTop pdf.pageCount headerCands
    else headerCands
  let l2 := l.filter (fun e => !(elMem e realHeader))
  let footerCands := footerCandidates pdf d
  let realFooter :=
    if footerCands ≠ [] then checkFalsePositiveHFTop pdf.pageCount footerCands
    else footerCands
  l2.filter (fun e => !(elMem e realFooter))

/-- C5 failing input, first candidate: page 1, `y0 = 10`, `y1 = 15`. -/
def elC5a : ElemHF := ⟨1, ⟨1, Q.ofInt 10, Q.ofInt 15⟩⟩

/-- C5 failing input, second candidate: page 3, same `y0`/`y1`. -/
def elC5b : ElemHF := ⟨2, ⟨3, Q.ofInt 10, Q.ofInt 15⟩⟩

/-- C9 counterexample document: 10 pages of height 800. -/
def pdfC9 : PdfHF := ⟨10, Q.ofInt 800⟩

/-- C9 counterexample elements: a band at `y0 = 700` on pages 1 to 4 and a
band at `y0 = 790` on pages 8 to 10; all inside the header band. -/
def elsC9 : List ElemHF :=
  [⟨1, ⟨1, Q.ofInt 700, Q.ofInt 705⟩⟩, ⟨2, ⟨2, Q.ofInt 700, Q.ofInt 705⟩⟩,
   ⟨3, ⟨3, Q.ofInt 700, Q.ofInt 705⟩⟩, ⟨4, ⟨4, Q.ofInt 700, Q.ofInt 705⟩⟩,
   ⟨5, ⟨8, Q.ofInt 790, Q.ofInt 795⟩⟩, ⟨6, ⟨9, Q.ofInt 790, Q.ofInt 795⟩⟩,
   ⟨7, ⟨10, Q.ofInt 790, Q.ofInt 795⟩⟩]

/-! ## Claim C1: textbox exclusion filter (`libpdf/textbox.py`,
`extract_lt_textboxes` and `remove_lt_textboxes_in_tables_figures_rect`) -/

/-- `TABLE_MARGIN = 8`. -/
def TABLE_MARGIN : Q := Q.ofInt 8

/-- The bounding box of a table, figure or rect on a page (the data read
from `element.position` by the exclusion filter). -/
structure BBoxE where
  x0 : Q
  y0 : Q
  x1 : Q
  y1 : Q
  deriving DecidableEq

/-- An `LTTextBox`: its bounding box and its lines; every contained layout
object (`LTChar` or `LTAnno`) contributes exactly one character of text. -/
structure TB where
  x0 : Q
  y0 : Q
  x1 : Q
  y1 : Q
  lines : List (List Char)
  deriving DecidableEq

/-- Concatenation of line texts: `LTTextBox.get_text()`. -/
def boxText (b : TB) : List Char :=
  b.lines.foldr (fun l acc => l ++ acc) []

/-- ASCII whitespace of Python's `\s` (the sources only ever meet ASCII
whitespace here; Unicode whitespace is out of scope of the embedding). -/
def isPySpace (c : Char) : Bool :=
  c = ' ' || c = '\t' || c = '\n' || c = '\r' || c = '\x0b' || c = '\x0c'

/-- `re.match(r'^\s*$', text)`: the text consists of whitespace only. -/
def isSpaceOnly (s : List Char) : Bool := s.all isPySpace

/-- The per-element keep condition of
`remove_lt_textboxes_in_tables_figures_rect`: the box pokes out of the
element's bounding box expanded by `TABLE_MARGIN` on at least one side. -/
def outsideOne (e : BBoxE) (b : TB) : Bool :=
  Q.lt b.x0 (Q.sub e.x0 TABLE_MARGIN) || Q.lt (Q.add e.x1 TABLE_MARGIN) b.x1 ||
    Q.lt b.y0 (Q.sub e.y0 TABLE_MARGIN) || Q.lt (Q.add e.y1 TABLE_MARGIN) b.y1

/-- The claim-side containment test: the box is fully inside the element's
bounding box expanded by `TABLE_MARGIN` in all directions. -/
def fullyInside (e : BBoxE) (b : TB) : Bool :=
  Q.le (Q.sub e.x0 TABLE_MARGIN) b.x0 && Q.le b.x1 (Q.add e.x1 TABLE_MARGIN) &&
    Q.le (Q.sub e.y0 TABLE_MARGIN) b.y0 && Q.le b.y1 (Q.add e.y1 TABLE_MARGIN)

/-- The filter loop of `remove_lt_textboxes_in_tables_figures_rect` for one
page: for each element of the merged table/figure/rect list the text boxes
are filtered by `outsideOne` in sequence.  (The source sorts the merged list
by `y0` descending; the sequential filters commute, so the element order
does not change the result.) -/
def removeInElems : List BBoxE → List TB → List TB
  | [], boxes => boxes
  | e :: rest, boxes => removeInElems rest (boxes.filter (fun b => outsideOne e b))

/-- Python error values raised by the embedded code. -/
inductive PyErr where
  | valueError (msg : String)
  | runtimeError (msg : String)
  | typeError
  | keyError
  | indexError
  | attributeError
  deriving DecidableEq

deriving instance DecidableEq for Except

/-- The last character of the last line of a box
(`lt_textbox._objs[-1]._objs[-1]`); `none` when the access would raise. -/
def lastChar (b : TB) : Option Char := (b.lines.getLastD []).getLast?

/-- The trailing-newline deletion
(`del lt_textbox._objs[-1]._objs[-1]`): drop the last object of the last
line. -/
def stripNL (b : TB) : TB :=
  { b with lines := b.lines.dropLast ++ [(b.lines.getLastD []).dropLast] }

/-- The noise loop of `extract_lt_textboxes`: a whitespace-only box is
dropped; otherwise the last object of the last line is inspected and the box
is appended (with that object deleted) only when it is a newline — the
append sits inside the `if`, so a box not ending in a newline is dropped.
Indexing an empty `_objs` list raises `IndexError`. -/
def noiseFilterPage : List TB → Except PyErr (List TB)
  | [] => .ok []
  | b :: rest =>
    if isSpaceOnly (boxText b) then noiseFilterPage rest
    else
      match b.lines.getLast? with
      | none => .error .indexError
      | some lastLine =>
        match lastLine.getLast? with
        | none => .error .indexError
        | some c =>
          if c = '\n' then do
            let rest' ← noiseFilterPage rest
            .ok ({ b with lines := b.lines.dropLast ++ [lastLine.dropLast] } :: rest')
          else noiseFilterPage rest

/-- The page-level pipeline of `extract_lt_textboxes`: exclusion of boxes
inside tables/figures/rects, then the noise filter. -/
def extractFilterPage (elems : List BBoxE) (boxes : List TB) :
    Except PyErr (List TB) :=
  noiseFilterPage (removeInElems elems boxes)

/-- C1 counterexample box: a single line holding the single character `a`
(no trailing newline). -/
def boxC1 : TB := ⟨Q.ofInt 0, Q.ofInt 0, Q.ofInt 10, Q.ofInt 10, [['a']]⟩

/-- C1 witness element: a table box `(100, 100, 200, 200)`. -/
def elemC1 : BBoxE := ⟨Q.ofInt 100, Q.ofInt 100, Q.ofInt 200, Q.ofInt 200⟩

/-- C1 witness box inside the expanded element box. -/
def boxC1in : TB :=
  ⟨Q.ofInt 110, Q.ofInt 110, Q.ofInt 150, Q.ofInt 150, [['x', '\n']]⟩

/-- C1 witness box outside the element box, ending in a newline. -/
def boxC1out : TB :=
  ⟨Q.ofInt 0, Q.ofInt 300, Q.ofInt 50, Q.ofInt 320, [['h', 'i', '\n']]⟩

/-- C1 witness box holding only whitespace. -/
def boxC1ws : TB :=
  ⟨Q.ofInt 0, Q.ofInt 400, Q.ofInt 50, Q.ofInt 420, [[' ', '\n']]⟩

/-! ## Claim C2: chapter numbering (`libpdf/catalog.py`, `chapter_number_giver`)

Python strings are embedded as `List Char`.  The regular expression
`^(?!\.)((^|\.)(([iIvVxX]{1,8})|[a-zA-Z]|[0-9]+))+\.?(?=[ \t]+\S+)` is
embedded as a backtracking engine with CPython's strategy: alternatives are
tried left to right, quantifiers greedily, and the first overall success in
that depth-first order is returned. -/

/-- Python `str.strip()` (ASCII whitespace; titles are ASCII here). -/
def pyStrip (s : List Char) : List Char :=
  ((s.dropWhile isPySpace).reverse.dropWhile isPySpace).reverse

/-- The decimal digit character of `n < 10`. -/
def digitChar (n : Nat) : Char := Char.ofNat (48 + n)

/-- Decimal representation of a natural number, fuelled structurally
(`fuel = n + 1` always suffices: the recursion divides `n` by 10). -/
def natReprAux : Nat → Nat → List Char
  | 0, _ => []
  | fuel + 1, n =>
    if n < 10 then [digitChar n]
    else natReprAux fuel (n / 10) ++ [digitChar (n % 10)]

/-- Python `str(n)` for a natural number. -/
def natRepr (n : Nat) : List Char := natReprAux (n + 1) n

/-- Python `int(s)` on a decimal-digit string (the only strings it receives
here are `str(n)` values; other inputs are garbage-in, garbage-out). -/
def pyIntNat (s : List Char) : Nat :=
  s.foldl (fun a c => a * 10 + (c.toNat - 48)) 0

/-- Python `s.split('.')` (keeps empty parts; `''.split('.') == ['']`). -/
def splitDots : List Char → List (List Char)
  | [] => [[]]
  | c :: cs =>
    match splitDots cs with
    | [] => [[c]]
    | r :: rs => if c = '.' then [] :: r :: rs else (c :: r) :: rs

/-- Python `'.'.join(parts)`. -/
def joinDots : List (List Char) → List Char
  | [] => []
  | [x] => x
  | x :: xs => x ++ '.' :: joinDots xs

/-- List-prefix test used to embed `str.replace`. -/
def listIsPre : List Char → List Char → Bool
  | [], _ => true
  | _ :: _, [] => false
  | a :: as, b :: bs => a = b && listIsPre as bs

/-- Scanner of Python `s.replace(old, '', 1)` for nonempty `old`: drop the
first occurrence of `old`. -/
def pyReplaceFirstAux (old : List Char) : List Char → List Char
  | [] => []
  | c :: cs =>
    if listIsPre old (c :: cs) then (c :: cs).drop old.length
    else c :: pyReplaceFirstAux old cs

/-- Python `s.replace(old, '', 1)`. -/
def pyReplaceFirst (s old : List Char) : List Char :=
  if old = [] then s else pyReplaceFirstAux old s

/-- Roman glyphs `[iIvVxX]` of the chapter-number pattern. -/
def isRomanChar (c : Char) : Bool :=
  c = 'i' || c = 'I' || c = 'v' || c = 'V' || c = 'x' || c = 'X'

/-- `[a-zA-Z]` of the chapter-number pattern. -/
def isAsciiLetter (c : Char) : Bool :=
  ('a' ≤ c && c ≤ 'z') || ('A' ≤ c && c ≤ 'Z')

/-- `[0-9]` of the chapter-number pattern. -/
def isDigitChar (c : Char) : Bool := '0' ≤ c && c ≤ '9'

/-- Length of the maximal run of characters satisfying `p`. -/
def runLength (p : Char → Bool) : List Char → Nat
  | [] => 0
  | c :: cs => if p c then runLength p cs + 1 else 0

/-- The suffixes remaining after one segment
`([iIvVxX]{1,8})|[a-zA-Z]|[0-9]+` of the pattern, in the engine's preference
order: roman glyphs longest first (greedy `{1,8}`), then a single letter,
then digits longest first (greedy `+`). -/
def segSuffixes (s : List Char) : List (List Char) :=
  let roman := Nat.min 8 (runLength isRomanChar s)
  let digits := runLength isDigitChar s
  (List.range roman).reverse.map (fun k => s.drop (k + 1))
    ++ (match s with
        | c :: rest => if isAsciiLetter c then [rest] else []
        | [] => [])
    ++ (List.range digits).reverse.map (fun k => s.drop (k + 1))

/-- The lookahead `(?=[ \t]+\S+)`: one or more spaces or tabs followed by a
non-whitespace character (with backtracking this holds exactly when the
maximal space/tab run is nonempty and is followed by a non-whitespace
character). -/
def lookaheadWs (s : List Char) : Bool :=
  let r := runLength (fun c => c = ' ' || c = '\t') s
  decide (1 ≤ r) &&
    (match (s.drop r).head? with
     | some c => !isPySpace c
     | none => false)

/-- The pattern tail `\.?(?=[ \t]+\S+)` at a suffix: the greedy optional dot
is tried first; on failure the dot is given back.  Returns the remaining
suffix on success. -/
def dotTail (s : List Char) : Option (List Char) :=
  match s with
  | '.' :: rest =>
    if lookaheadWs rest then some rest
    else if lookaheadWs s then some s else none
  | _ => if lookaheadWs s then some s else none

/-- First success of `f` over a list, in order (the engine's backtracking
over alternatives). -/
def firstSome {α β : Type} (f : α → Option β) : List α → Option β
  | [] => none
  | x :: xs =>
    match f x with
    | some b => some b
    | none => firstSome f xs

/-- The state after one segment of the `(...)+` loop: greedily try a further
iteration `\.(SEG)` (each segment alternative with its full continuation),
then fall back to the tail `\.?(?=...)`.  `fuel = length + 1` suffices since
every iteration consumes at least two characters. -/
def afterSeg : Nat → List Char → Option (List Char)
  | 0, _ => none
  | fuel + 1, s =>
    let more :=
      match s with
      | '.' :: rest => firstSome (fun t => afterSeg fuel t) (segSuffixes rest)
      | _ => none
    match more with
    | some r => some r
    | none => dotTail s

/-- `re.match` of the chapter-number pattern: `none` when there is no match,
otherwise the matched prefix (`match[0]`).  The leading `(?!\.)` rejects a
leading dot; the first iteration's `(^|\.)` can only use `^` at position
zero. -/
def reMatchChapterNumber (s : List Char) : Option (List Char) :=
  match s with
  | '.' :: _ => none
  | _ =>
    match firstSome (fun t => afterSeg (s.length + 1) t) (segSuffixes s) with
    | some rem => some (s.take (s.length - rem.length))
    | none => none

/-- The jump-target payload of an outline entry
(`{'x0': ..., 'y1': ..., 'page': ...}`). -/
structure OutPos where
  x0 : Q
  y1 : Q
  page : Option Nat
  deriving DecidableEq

/-- An outline-catalog chapter dictionary: `number`, `title`, `position`,
nested `content`. -/
inductive OutlineCh where
  | mk (number : List Char) (title : List Char) (pos : OutPos)
      (content : List OutlineCh)

/-- The `number` entry of an outline chapter. -/
def OutlineCh.number : OutlineCh → List Char
  | .mk n _ _ _ => n

/-- The `title` entry of an outline chapter. -/
def OutlineCh.title : OutlineCh → List Char
  | .mk _ t _ _ => t

/-- The `position` entry of an outline chapter. -/
def OutlineCh.pos : OutlineCh → OutPos
  | .mk _ _ p _ => p

/-- The `content` entry of an outline chapter. -/
def OutlineCh.content : OutlineCh → List OutlineCh
  | .mk _ _ _ c => c

/-- The string `virt.` prefixed to virtual chapter numbers. -/
def virtPrefix : List Char := ['v', 'i', 'r', 't', '.']

/-- The `for idx_chapter, chapter in enumerate(...)` loop shape of
`chapter_number_giver`, with the loop body abstracted. -/
def cngLoop (f : Nat → OutlineCh → OutlineCh) :
    List OutlineCh → Nat → List OutlineCh
  | [], _ => []
  | ch :: rest, idx => f idx ch :: cngLoop f rest (idx + 1)

/-- `chapter_number_giver`, fuelled on the nesting depth: the recursion
into `content` descends one outline level per call, so any `fuel` at least
the outline depth gives the Python semantics (the fuel-0 case is
unreachable then).  Each loop body matches the chapter-number pattern on
the stripped title; on a match the matched prefix becomes the number and is
removed from the title, otherwise the number becomes `virt.<level>`;
nonempty content is processed recursively with level `<level>.1`. -/
def chapterNumberGiver : Nat → List OutlineCh → List Char → List OutlineCh
  | 0, chs, _ => chs
  | fuel + 1, chs, virt =>
    let levels := splitDots virt
    let startLevel := pyIntNat (levels.getLastD [])
    let parentLevel := joinDots levels.dropLast
    cngLoop
      (fun idx ch =>
        match ch with
        | .mk _number title pos content =>
          let currentLevel := startLevel + idx
          let newLevel :=
            if parentLevel = [] then natRepr currentLevel
            else parentLevel ++ '.' :: natRepr currentLevel
          let chapterTitle := pyStrip title
          let newContent :=
            match content with
            | [] => ([] : List OutlineCh)
            | c :: cs => chapterNumberGiver fuel (c :: cs) (newLevel ++ ['.', '1'])
          match reMatchChapterNumber chapterTitle with
          | some m =>
            OutlineCh.mk m (pyStrip (pyReplaceFirst chapterTitle m)) pos
              newContent
          | none => OutlineCh.mk (virtPrefix ++ newLevel) title pos newContent)
      chs 0

/-- Node of a forest at a 0-based index path (specification side of C2). -/
def getAt : List OutlineCh → List Nat → Option OutlineCh
  | _, [] => none
  | chs, [i] => chs.get? i
  | chs, i :: rest =>
    match chs.get? i with
    | none => none
    | some ch => getAt ch.content rest

/-- C2 witness forest: a numbered title, an unnumbered title with an
unnumbered child. -/
def forestC2 : List OutlineCh :=
  [OutlineCh.mk [] ['3', '.', '4', ' ', 'I', 'n', 's', 't', 'a', 'l', 'l']
      ⟨Q.ofInt 0, Q.ofInt 0, some 1⟩ [],
   OutlineCh.mk [] ['O', 'v', 'e', 'r', 'v', 'i', 'e', 'w']
      ⟨Q.ofInt 0, Q.ofInt 0, some 2⟩
      [OutlineCh.mk [] ['D', 'e', 't', 'a', 'i', 'l', 's']
        ⟨Q.ofInt 0, Q.ofInt 0, some 2⟩ []]]

/-- The child node of `forestC2` at path `[1, 0]`. -/
def nodeC2 : OutlineCh :=
  OutlineCh.mk [] ['D', 'e', 't', 'a', 'i', 'l', 's']
    ⟨Q.ofInt 0, Q.ofInt 0, some 2⟩ []

/-! ## Claim C6: link index validity (`libpdf/textbox.py`,
`extract_linked_chars`, `annos_scanner`, `first_last_char_in_anno_marker`,
`render_link`).

Every layout object inside a text line (`LTChar` or `LTAnno`) contributes
exactly one character to the line's text, so the textbox's logical text is
the concatenation of its lines' objects. -/

/-- `ANNO_X_TOLERANCE = 3`. -/
def ANNO_X_TOL : Q := Q.ofInt 3

/-- A layout object of a text line: an `LTChar` with its horizontal extent,
or an `LTAnno` (synthetic separator without coordinates). -/
inductive LTItem where
  | chr (x0 x1 : Q) (c : Char)
  | anno (c : Char)
  deriving DecidableEq

/-- The character contributed by a layout object. -/
def LTItem.text : LTItem → Char
  | .chr _ _ c => c
  | .anno c => c

/-- An `LTTextLineHorizontal`: bounding box and contained objects. -/
structure LTLine where
  x0 : Q
  y0 : Q
  x1 : Q
  y1 : Q
  objs : List LTItem
  deriving DecidableEq

/-- An `LTTextBox` as read by `extract_linked_chars`. -/
structure TBL where
  x0 : Q
  y0 : Q
  x1 : Q
  y1 : Q
  lines : List LTLine
  deriving DecidableEq

/-- An entry of the named-destination catalog (`{'X', 'Y', 'Num'}`). -/
structure DestEntry where
  destX : Q
  destY : Q
  num : Option Nat
  deriving DecidableEq

/-- The explicit-destination payload of an annotation
(`{'page', 'rect_X', 'rect_Y'}`). -/
structure AnnoDest where
  page : Option Nat
  rectX : Q
  rectY : Q
  deriving DecidableEq

/-- A link annotation of the catalog: rectangle plus either a named
destination (`des_name`) or an explicit destination (`dest`). -/
structure AnnoRec where
  rect0 : Q
  rect1 : Q
  rect2 : Q
  rect3 : Q
  desName : Option (List Char)
  dest : Option AnnoDest
  deriving DecidableEq

/-- The position a link jumps to (`pos_target`). -/
structure PosTarget where
  page : Option Nat
  x : Q
  y : Q
  deriving DecidableEq

/-- A `Link` as produced in phase A: half-open character indices into the
source textbox's text plus the jump target. -/
structure LinkR where
  idxStart : Nat
  idxStop : Nat
  posTarget : PosTarget
  deriving DecidableEq

/-- The `anno_flags` dictionary of `annos_scanner`. -/
structure AnnoFlags where
  startIdx : Option Nat
  stopIdx : Option Nat
  deriving DecidableEq

/-- Lookup in the named-destination dictionary. -/
def lookupDest : List (List Char × DestEntry) → List Char → Option DestEntry
  | [], _ => none
  | (k, v) :: rest, nm => if k = nm then some v else lookupDest rest nm

/-- Lookup of a page's annotation list (`catalog['annos'][page_number]`). -/
def lookupAnnos : List (Nat × List AnnoRec) → Nat → Option (List AnnoRec)
  | [], _ => none
  | (k, v) :: rest, pg => if k = pg then some v else lookupAnnos rest pg

/-- `first_last_char_in_anno_marker`: marks the first and last object inside
the current annotation rectangle and reports completion; two adjacent
`LTAnno` objects raise `ValueError`. -/
def marker (idxChar : Nat) (ch : LTItem) (objs : List LTItem) (anno : AnnoRec)
    (flags : AnnoFlags) : Except PyErr (AnnoFlags × Bool) :=
  match ch with
  | .chr cx0 cx1 _ =>
    if Q.lt (Q.sub anno.rect0 ANNO_X_TOL) cx0
        && Q.lt cx1 (Q.add anno.rect2 ANNO_X_TOL) then
      let flags1 : AnnoFlags :=
        { startIdx :=
            match flags.startIdx with
            | none => some idxChar
            | some s => some s
          stopIdx := some (idxChar + 1) }
      if idxChar = objs.length - 1 then .ok (flags1, true)
      else
        match objs.get? (idxChar + 1) with
        | some (.chr nx0 _ _) =>
          if Q.lt anno.rect2 nx0 then .ok (flags1, true) else .ok (flags1, false)
        | _ => .ok (flags1, false)
    else .ok (flags, false)
  | .anno _ =>
    if idxChar = objs.length - 1 then .ok (flags, true)
    else
      match objs.get? (idxChar + 1) with
      | some (.chr nx0 _ _) =>
        if Q.lt anno.rect2 nx0 then .ok (flags, true) else .ok (flags, false)
      | some (.anno _) => .error (.valueError "two LTAnno occurs in a row")
      | none => .ok (flags, false)

/-- `render_link`: build the link from the flag indices and the annotation's
target, then reset the flags.  `None` flag values would raise `TypeError`
(the call site guards both); a named destination missing from the catalog
falls back to `anno['dest']`, raising `KeyError` when that entry is
absent. -/
def renderLink (flags : AnnoFlags) (anno : AnnoRec)
    (dests : Option (List (List Char × DestEntry))) (charCounter : Nat) :
    Except PyErr (LinkR × AnnoFlags) :=
  match flags.startIdx, flags.stopIdx with
  | some s, some e =>
    let startIdx := s + charCounter
    let stopIdx := if s = e then startIdx else e + charCounter
    let posTarget : Except PyErr PosTarget :=
      match anno.desName with
      | some nm =>
        match dests with
        | some dl =>
          if dl ≠ [] then
            match lookupDest dl nm with
            | some d => .ok ⟨d.num, d.destX, d.destY⟩
            | none =>
              match anno.dest with
              | some ad => .ok ⟨ad.page, ad.rectX, ad.rectY⟩
              | none => .error .keyError
          else
            match anno.dest with
            | some ad => .ok ⟨ad.page, ad.rectX, ad.rectY⟩
            | none => .error .keyError
        | none =>
          match anno.dest with
          | some ad => .ok ⟨ad.page, ad.rectX, ad.rectY⟩
          | none => .error .keyError
      | none =>
        match anno.dest with
        | some ad => .ok ⟨ad.page, ad.rectX, ad.rectY⟩
        | none => .error .keyError
    match posTarget with
    | .error e => .error e
    | .ok pt => .ok (⟨startIdx, stopIdx, pt⟩, ⟨none, none⟩)
  | _, _ => .error .typeError

/-- The `for idx_char, char in enumerate(...)` loop of `annos_scanner`:
`rest` is `objs.drop idxChar`. -/
def annosScannerGo (dests : Option (List (List Char × DestEntry)))
    (annosLine : List AnnoRec) (charCounter : Nat) (objs : List LTItem) :
    List LTItem → Nat → Nat → AnnoFlags → List LinkR →
    Except PyErr (List LinkR)
  | [], _, _, _, links => .ok links
  | ch :: rest, idxChar, idxAnno, flags, links =>
    match annosLine.get? idxAnno with
    | none => annosScannerGo dests annosLine charCounter objs rest
        (idxChar + 1) idxAnno flags links
    | some anno =>
      match marker idxChar ch objs anno flags with
      | .error e => .error e
      | .ok (flags1, annoComplete) =>
        if flags1.startIdx.isSome && flags1.stopIdx.isSome then
          if annoComplete then
            match renderLink flags1 anno dests charCounter with
            | .error e => .error e
            | .ok (link, flags2) =>
              annosScannerGo dests annosLine charCounter objs rest
                (idxChar + 1) (idxAnno + 1) flags2 (links ++ [link])
          else
            annosScannerGo dests annosLine charCounter objs rest
              (idxChar + 1) idxAnno flags1 links
        else
          annosScannerGo dests annosLine charCounter objs rest
            (idxChar + 1) idxAnno flags1 links

/-- `annos_scanner` on one text line. -/
def annosScanner (dests : Option (List (List Char × DestEntry)))
    (line : LTLine) (annosLine : List AnnoRec) (charCounter : Nat) :
    Except PyErr (List LinkR) :=
  annosScannerGo dests annosLine charCounter line.objs line.objs 0 0
    ⟨none, none⟩ []

/-- Stable insertion preserving the order of equal keys, embedding Python's
stable sort of `annos_line` by `rect[0]`. -/
def insAnno (x : AnnoRec) : List AnnoRec → List AnnoRec
  | [] => [x]
  | y :: ys => if Q.lt x.rect0 y.rect0 then x :: y :: ys else y :: insAnno x ys

/-- `annos_line.sort(key=lambda x: x['rect'][0])`. -/
def pySortAnnos : List AnnoRec → List AnnoRec
  | [] => []
  | x :: xs => insAnno x (pySortAnnos xs)

/-- The vertical midpoint `rect[1] + abs(rect[1] - rect[3]) / 2`. -/
def annoMidY (a : AnnoRec) : Q :=
  Q.add a.rect1 (Q.div (Q.abs (Q.sub a.rect1 a.rect3)) (Q.ofInt 2))

/-- The per-line loop of `extract_linked_chars`: filter the annotations to
the line, sort them left-to-right, scan the line, and advance the character
counter by the number of the line's objects. -/
def elcLines (dests : Option (List (List Char × DestEntry)))
    (annoTB : List AnnoRec) :
    List LTLine → Nat → List LinkR → Except PyErr (List LinkR)
  | [], _, links => .ok links
  | line :: rest, cc, links =>
    let annosLine := annoTB.filter (fun a =>
      Q.lt a.rect0 line.x1 && Q.lt line.x0 a.rect2 &&
        (Q.lt (annoMidY a) line.y1 && Q.lt line.y0 (annoMidY a)))
    if annosLine = [] then
      elcLines dests annoTB rest (cc + line.objs.length) links
    else
      match annosScanner dests line (pySortAnnos annosLine) cc with
      | .error e => .error e
      | .ok ls => elcLines dests annoTB rest (cc + line.objs.length) (links ++ ls)

/-- `extract_linked_chars`: collect the annotations of the page that
intersect the textbox, then scan each line. -/
def extractLinkedChars (dests : Option (List (List Char × DestEntry)))
    (annosCat : List (Nat × List AnnoRec)) (box : TBL) (pageNumber : Nat) :
    Except PyErr (List LinkR) :=
  match lookupAnnos annosCat pageNumber with
  | none => .ok []
  | some annos =>
    let annoTextboxes := annos.filter (fun a =>
      Q.lt a.rect0 box.x1 && Q.lt a.rect1 box.y1 &&
        Q.lt box.x0 a.rect2 && Q.lt box.y0 a.rect3)
    if annoTextboxes = [] then .ok []
    else elcLines dests annoTextboxes box.lines 0 []

/-- The logical text of a textbox: concatenation of the lines' objects'
characters. -/
def tblText (b : TBL) : List Char :=
  b.lines.foldr (fun l acc => (l.objs.map LTItem.text) ++ acc) []

/-- C6 witness annotation: rectangle `(0, 0, 50, 10)` with an explicit
destination on page 2. -/
def annoC6 : AnnoRec :=
  ⟨Q.ofInt 0, Q.ofInt 0, Q.ofInt 50, Q.ofInt 10, none,
    some ⟨some 2, Q.ofInt 72, Q.ofInt 600⟩⟩

/-- C6 witness textbox: one line reading `Hi` followed by the newline
separator. -/
def boxC6 : TBL :=
  ⟨Q.ofInt 0, Q.ofInt 0, Q.ofInt 100, Q.ofInt 10,
    [⟨Q.ofInt 0, Q.ofInt 0, Q.ofInt 100, Q.ofInt 10,
      [LTItem.chr (Q.ofInt 0) (Q.ofInt 5) 'H',
       LTItem.chr (Q.ofInt 6) (Q.ofInt 11) 'i',
       LTItem.anno '\n']⟩]⟩

/-- Invariant of the scanner's flag state after processing `i` objects:
either both indices are unset, or both are set with `start < stop ≤ i`. -/
def flagsInv (flags : AnnoFlags) (i : Nat) : Prop :=
  (flags.startIdx = none ∧ flags.stopIdx = none) ∨
  (∃ s e, flags.startIdx = some s ∧ flags.stopIdx = some e ∧ s < e ∧ e ≤ i)

/-- Index bounds of a link produced from a line of `n` objects starting at
character offset `cc`. -/
def linkBound (n cc : Nat) (l : LinkR) : Prop :=
  l.idxStart ≤ l.idxStop ∧ l.idxStop ≤ n + cc

/-- Total number of layout objects over a list of lines. -/
def linesLen (ls : List LTLine) : Nat :=
  ls.foldr (fun l acc => l.objs.length + acc) 0

/-! ## Claim C8: malformed-catalog errors (`libpdf/catalog.py`,
`get_outline`, `resolve_outline`, `get_explict_dest`)

PDF indirect references are embedded as object ids resolved against an
explicit heap (`List (Nat × OutlineObjRec)`); `.resolve()` becomes a heap
lookup.  An explicit-destination list entry is a `DItem`: an indirect
reference (carrying the referenced page's `MediaBox[3]`, read by the
non-`XYZ` branch of `get_explict_dest`), a `PSLiteral` name, or a number.
Error messages keep the Python text except that interpolated `repr`s of
PDF objects are dropped. -/

/-- An entry of an explicit-destination list such as
`[page, /XYZ, left, top, zoom]`. -/
inductive DItem where
  | ref (objid : Nat) (mediaTop : Q)
  | lit (nm : List Char)
  | num (v : Q)
  deriving DecidableEq

/-- The value of a `D` or `Dest` key: an explicit-destination list, a PDF
1.1 `PSLiteral` name, or a PDF 1.2 byte string. -/
inductive DVal where
  | expl (items : List DItem)
  | namedLit (nm : List Char)
  | namedBytes (bs : List Char)
  deriving DecidableEq

/-- A resolved action dictionary (`outline_obj['A']`): the `S` name and the
`D` destination. -/
structure ActionRec where
  s : List Char
  d : DVal
  deriving DecidableEq

/-- A resolved outline object: the optional `A`, `Dest`, `First` and `Next`
keys and the `Title` (title indirect references pre-resolved, the decoding
of the title bytes by `chardet` embedded as the identity). -/
structure OutlineObjRec where
  a : Option ActionRec
  dest : Option DVal
  title : List Char
  first : Option Nat
  next : Option Nat
  deriving DecidableEq

/-- An entry of the named-destination dictionary built by
`get_named_destination`: raw `X`/`Y` scalars and the page number. -/
structure DestEntry8 where
  x : DItem
  y : DItem
  num : Option Nat
  deriving DecidableEq

/-- The value of `outline_dest` after the destination dispatch: an
explicit-destination record (a Python dict) or a named destination (a
Python string). -/
inductive DestRes where
  | expl (page : Option Nat) (rx ry : DItem)
  | named (nm : List Char)
  deriving DecidableEq

/-- The `position` dictionary of a resolved outline entry. -/
structure C8Pos where
  page : Option Nat
  x0 : DItem
  y1 : DItem
  deriving DecidableEq

/-- A resolved outline chapter as built by `resolve_outline` (positions
keep the raw scalars). -/
inductive ONode where
  | mk (number : List Char) (title : List Char) (pos : C8Pos)
      (content : List ONode)

/-- The `content` entry of a resolved outline chapter. -/
def ONode.content : ONode → List ONode
  | .mk _ _ _ c => c

/-- Replace the `content` entry of a resolved outline chapter. -/
def ONode.withContent : ONode → List ONode → ONode
  | .mk n t p _, c => .mk n t p c

/-- Heap lookup embedding `PDFObjRef.resolve()` for outline objects. -/
def lookupHeap : List (Nat × OutlineObjRec) → Nat → Option OutlineObjRec
  | [], _ => none
  | (k, v) :: rest, i => if k = i then some v else lookupHeap rest i

/-- Lookup in the named-destination dictionary (`des_dict[name]`). -/
def lookupDest8 : List (List Char × DestEntry8) → List Char → Option DestEntry8
  | [], _ => none
  | (k, v) :: rest, nm => if k = nm then some v else lookupDest8 rest nm

/-- The page-number scan of `get_explict_dest`: the pages are
`(pageid, page_number)` pairs and the loop keeps the last match, `None`
when no page matches. -/
def findPageNum (pages : List (Nat × Nat)) (objid : Nat) : Option Nat :=
  pages.foldl (fun acc p => if p.1 = objid then some p.2 else acc) none

/-- The name `XYZ`. -/
def xyzName : List Char := ['X', 'Y', 'Z']

/-- The name `GoTo`. -/
def goToName : List Char := ['G', 'o', 'T', 'o']

/-- The `RuntimeError` message for a destination whose first entry is not
an indirect reference (the leading `Page {repr}` interpolation dropped). -/
def pageRefErrMsg : String := "is not an indirect reference to a page object"

/-- `get_explict_dest`: page number from the page id of the first entry,
then the target rectangle from the `XYZ` entries or the page top.  Indexing
past the end of the list raises `IndexError`; `.objid`/`.name` on an entry
of the wrong kind raises `AttributeError`. -/
def getExplictDest (pages : List (Nat × Nat)) :
    List DItem → Except PyErr (Option Nat × DItem × DItem)
  | [] => .error .indexError
  | d0 :: rest =>
    match d0 with
    | .ref objid mediaTop =>
      let destPageNum := findPageNum pages objid
      match rest with
      | [] => .error .indexError
      | d1 :: rest2 =>
        match d1 with
        | .lit nm =>
          if nm = xyzName then
            match rest2 with
            | x :: y :: _ => .ok (destPageNum, x, y)
            | _ => .error .indexError
          else .ok (destPageNum, .num (Q.ofInt 0), .num mediaTop)
        | _ => .error .attributeError
    | _ => .error .attributeError

/-- The destination dispatch shared by the `A`/GoTo and the `Dest` branches
of `resolve_outline`: an explicit-destination list whose first entry is an
indirect reference goes through `get_explict_dest`, any other first entry
raises `RuntimeError`; a name object or byte string yields the named
destination. -/
def destResOfDVal (pages : List (Nat × Nat)) :
    DVal → Except PyErr DestRes
  | .expl items =>
    match items with
    | [] => .error .indexError
    | .ref objid mediaTop :: rest =>
      match getExplictDest pages (.ref objid mediaTop :: rest) with
      | .error e => .error e
      | .ok (pg, x, y) => .ok (.expl pg x y)
    | _ :: _ => .error (.runtimeError pageRefErrMsg)
  | .namedLit nm => .ok (.named nm)
  | .namedBytes bs => .ok (.named bs)

/-- `resolve_outline`, fuelled on the recursion depth (any fuel above the
number of traversed outline objects gives the Python semantics).  The
checks run in source order: `A`/`Dest` coexistence, destination dispatch
(raising `ValueError` when neither key exists), truthiness of
`outline_dest` (a named destination that is the empty string is falsy),
the named-destination lookup (`KeyError` on a missing name, `TypeError`
when `des_dict` is `None` and a string is subscripted like a dict), the
append, then the `First` recursion into the last list element's content
(`IndexError` on an empty list) and the `Next` recursion at the same
level. -/
def resolveOutline (heap : List (Nat × OutlineObjRec))
    (pages : List (Nat × Nat))
    (desDict : Option (List (List Char × DestEntry8))) :
    Nat → OutlineObjRec → List ONode → Except PyErr (List ONode)
  | 0, _, acc => .ok acc
  | fuel + 1, node, acc =>
    if node.a.isSome && node.dest.isSome then
      .error (.valueError "Key A and Dest can not coexist in outline.")
    else
      let destAndTitle : Except PyErr (Option DestRes × List Char) :=
        match node.a with
        | some act =>
          if act.s = goToName then
            match destResOfDVal pages act.d with
            | .error e => .error e
            | .ok dr => .ok (some dr, node.title)
          else .ok (none, node.title)
        | none =>
          match node.dest with
          | some dv =>
            match destResOfDVal pages dv with
            | .error e => .error e
            | .ok dr => .ok (some dr, node.title)
          | none => .error (.valueError "No key A and Dest in outline.")
      match destAndTitle with
      | .error e => .error e
      | .ok (destRes, titleDecoded) =>
        let appended : Except PyErr (List ONode) :=
          match destRes with
          | none => .ok acc
          | some (.expl pg rx ry) =>
            .ok (acc ++ [ONode.mk [] titleDecoded ⟨pg, rx, ry⟩ []])
          | some (.named nm) =>
            if nm = [] then .ok acc
            else
              match desDict with
              | some dl =>
                match lookupDest8 dl nm with
                | none => .error .keyError
                | some de =>
                  .ok (acc ++ [ONode.mk [] titleDecoded ⟨de.num, de.x, de.y⟩ []])
              | none => .error .typeError
        match appended with
        | .error e => .error e
        | .ok acc1 =>
          let afterFirst : Except PyErr (List ONode) :=
            match node.first with
            | none => .ok acc1
            | some fid =>
              match acc1.getLast? with
              | none => .error .indexError
              | some last =>
                match lookupHeap heap fid with
                | none => .error .typeError
                | some child =>
                  match resolveOutline heap pages desDict fuel child
                      last.content with
                  | .error e => .error e
                  | .ok newContent =>
                    .ok (acc1.dropLast ++ [last.withContent newContent])
          match afterFirst with
          | .error e => .error e
          | .ok acc2 =>
            match node.next with
            | none => .ok acc2
            | some nid =>
              match lookupHeap heap nid with
              | none => .error .typeError
              | some sib => resolveOutline heap pages desDict fuel sib acc2

/-- The loop shape of `chapter_number_giver` at the resolved-node type. -/
def cngLoop8 (f : Nat → ONode → ONode) : List ONode → Nat → List ONode
  | [], _ => []
  | ch :: rest, idx => f idx ch :: cngLoop8 f rest (idx + 1)

/-- `chapter_number_giver` at the resolved-node type produced by
`resolve_outline` (same function as `chapterNumberGiver`, positions kept
raw). -/
def chapterNumberGiver8 : Nat → List ONode → List Char → List ONode
  | 0, chs, _ => chs
  | fuel + 1, chs, virt =>
    let levels := splitDots virt
    let startLevel := pyIntNat (levels.getLastD [])
    let parentLevel := joinDots levels.dropLast
    cngLoop8
      (fun idx ch =>
        match ch with
        | .mk _number title pos content =>
          let currentLevel := startLevel + idx
          let newLevel :=
            if parentLevel = [] then natRepr currentLevel
            else parentLevel ++ '.' :: natRepr currentLevel
          let chapterTitle := pyStrip title
          let newContent :=
            match content with
            | [] => ([] : List ONode)
            | c :: cs => chapterNumberGiver8 fuel (c :: cs) (newLevel ++ ['.', '1'])
          match reMatchChapterNumber chapterTitle with
          | some m =>
            ONode.mk m (pyStrip (pyReplaceFirst chapterTitle m)) pos newContent
          | none => ONode.mk (virtPrefix ++ newLevel) title pos newContent)
      chs 0

/-- The resolved `Outlines` dictionary, abstracted to its truthiness and
its optional `First` entry (the object id behind the reference). -/
structure OutlinesObj where
  nonEmpty : Bool
  first : Option Nat
  deriving DecidableEq

/-- `get_outline`: `None` without an `Outlines` key or with a falsy
resolved `Outlines` dictionary; `ValueError` when `First` is missing;
otherwise the outline content is resolved and, when nonempty, numbered
starting from virtual level `1`. -/
def getOutline (cat : Option OutlinesObj) (heap : List (Nat × OutlineObjRec))
    (desDict : Option (List (List Char × DestEntry8)))
    (pages : List (Nat × Nat)) : Except PyErr (Option (List ONode)) :=
  match cat with
  | none => .ok none
  | some ob =>
    if !ob.nonEmpty then .ok none
    else
      match ob.first with
      | none => .error (.valueError "Key \"First\" is not in Outlines")
      | some fid =>
        match lookupHeap heap fid with
        | none => .error .typeError
        | some root =>
          match resolveOutline heap pages desDict (heap.length + 1) root [] with
          | .error e => .error e
          | .ok content =>
            match content with
            | [] => .ok (some [])
            | c :: cs =>
              .ok (some (chapterNumberGiver8 (heap.length + 1) (c :: cs) ['1']))

/-- C8 witness `Outlines` object: truthy but without a `First` key. -/
def obC8 : OutlinesObj := ⟨true, none⟩

/-- C8 witness node carrying both an `A` and a `Dest` key. -/
def nodeBothC8 : OutlineObjRec :=
  ⟨some ⟨goToName, DVal.namedLit ['x']⟩, some (DVal.namedLit ['x']),
    ['T'], none, none⟩

/-- C8 witness node with neither an `A` nor a `Dest` key. -/
def nodeNeitherC8 : OutlineObjRec := ⟨none, none, ['T'], none, none⟩

/-- C8 witness node whose GoTo action has an explicit-destination list
headed by a number instead of an indirect reference. -/
def nodeBadA8 : OutlineObjRec :=
  ⟨some ⟨goToName, DVal.expl [DItem.num (Q.ofInt 1)]⟩, none, ['T'],
    none, none⟩

/-- C8 witness node whose `Dest` explicit-destination list is headed by a
name instead of an indirect reference. -/
def nodeBadD8 : OutlineObjRec :=
  ⟨none, some (DVal.expl [DItem.lit ['F', 'i', 't']]), ['T'], none, none⟩

/-- The link produced from `boxC6` and `annoC6`. -/
def linkC6 : LinkR := ⟨0, 2, ⟨some 2, Q.ofInt 72, Q.ofInt 600⟩⟩

-- THEOREMS BELOW THIS LINE --

/-- `Q.le` agrees with the order of the rational values. -/
theorem Q.le_iff_toRat (a b : Q) : Q.le a b = true ↔ Q.toRat a ≤ Q.toRat b := by
  have ha := a.pos
  have hb := b.pos
  rw [Q.le, Q.toRat, Q.toRat, decide_eq_true_eq,
    div_le_div_iff₀ (by exact_mod_cast ha) (by exact_mod_cast hb)]
  exact_mod_cast Iff.rfl

/-- `Q.beq` agrees with equality of the rational values. -/
theorem Q.beq_iff_toRat (a b : Q) : Q.beq a b = true ↔ Q.toRat a = Q.toRat b := by
  have ha := a.pos
  have hb := b.pos
  rw [Q.beq, Q.toRat, Q.toRat, decide_eq_true_eq,
    div_eq_div_iff (by positivity) (by positivity)]
  exact_mod_cast Iff.rfl

/-- `Q.le` is total. -/
theorem Q.le_total' (a b : Q) : (Q.le a b || Q.le b a) = true := by
  rcases le_total (Q.toRat a) (Q.toRat b) with h | h
  · simp [(Q.le_iff_toRat a b).mpr h]
  · simp [(Q.le_iff_toRat b a).mpr h]

/-- `Q.le` is transitive. -/
theorem Q.le_trans' (a b c : Q) (hab : Q.le a b = true) (hbc : Q.le b c = true) :
    Q.le a c = true :=
  (Q.le_iff_toRat a c).mpr
    (le_trans ((Q.le_iff_toRat a b).mp hab) ((Q.le_iff_toRat b c).mp hbc))

/-- Helper for C3: appending one identifier to a nonempty join. -/
theorem slashJoin_snoc (x : String) :
    ∀ xs : List String, xs ≠ [] → slashJoin (xs ++ [x]) = slashJoin xs ++ "/" ++ x := by
  intro xs
  induction xs with
  | nil => intro h; exact absurd rfl h
  | cons y ys ih =>
    intro _
    cases ys with
    | nil => rfl
    | cons z zs =>
      have hne : z :: zs ≠ [] := by simp
      calc slashJoin ((y :: z :: zs) ++ [x])
          = y ++ "/" ++ slashJoin ((z :: zs) ++ [x]) := rfl
        _ = y ++ "/" ++ (slashJoin (z :: zs) ++ "/" ++ x) := by rw [ih hne]
        _ = (y ++ "/" ++ slashJoin (z :: zs)) ++ "/" ++ x := by
              simp [String.append_assoc]
        _ = slashJoin (y :: z :: zs) ++ "/" ++ x := rfl

/-- Helper for C3: a chapter chain is never empty. -/
theorem chain_ne_nil (c : ChapterU) : ChapterU.chain c ≠ [] := by
  cases c with
  | root i => simp [ChapterU.chain]
  | sub i p => simp [ChapterU.chain]

/-- Helper for C3: the loop prefix equals the `/`-join of the ancestor chain. -/
theorem uidPrefix_eq_slashJoin (c : ChapterU) :
    ChapterU.uidPrefix c = slashJoin (ChapterU.chain c) := by
  induction c with
  | root i => rfl
  | sub i p ih =>
    simp only [ChapterU.uidPrefix, ChapterU.chain, ih,
      slashJoin_snoc i (ChapterU.chain p) (chain_ne_nil p)]

/-- Claim C3: for every element, `Element.uid` equals the `/`-joined `id_`
values of its ancestor chapters from outermost to innermost, followed by `/`
and the element's own `id_`; an element with no parent chapter has uid equal
to its own `id_`. -/
theorem C3_uid_generation (e : ElemU) :
    ElemU.uid e = slashJoin (ElemU.ancestors e ++ [e.id_]) := by
  rcases e with ⟨i, p⟩
  cases p with
  | none => rfl
  | some c =>
    simp only [ElemU.uid, ElemU.ancestors, uidPrefix_eq_slashJoin,
      slashJoin_snoc i (ChapterU.chain c) (chain_ne_nil c)]

/-- `Q.beq` is reflexive. -/
theorem Q.beq_refl (a : Q) : Q.beq a a = true := by simp [Q.beq]

/-- Value equality implies `<=` for the float embedding. -/
theorem Q.le_of_beq {a b : Q} (h : Q.beq a b = true) : Q.le a b = true := by
  simp only [Q.beq, decide_eq_true_eq] at h
  simp [Q.le, h, le_refl]

/-- `Fig.beq` is reflexive. -/
theorem Fig.beq_self (f : Fig) : Fig.beq f f = true := by
  simp [Fig.beq, Q.beq_refl]

/-- Claim C4, counterexample: two figures of equal area that partially
overlap, with neither containing the other; the filter keeps the second and
drops the first, contradicting the claim that the second is dropped. -/
theorem C4_counterexample :
    (figOverlaps figC4a figC4b && !figContains figC4a figC4b
      && !figContains figC4b figC4a) = true
    ∧ Q.beq (Q.mul figC4a.width figC4a.height)
        (Q.mul figC4b.width figC4b.height) = true
    ∧ checkAndFilterFigures [figC4a, figC4b] = [figC4b] := by
  refine ⟨by decide, by decide, by decide⟩

/-- Claim C4, amended: in the partial-overlap arbitration, for a pair of
remaining figures of equal area that partially overlap with the first not
containing the second, the first figure in iteration order is dropped and the
second is kept. -/
theorem C4_equal_area_drops_first (f0 f1 : Fig)
    (hsize0 : (Q.lt (Q.ofInt 15) f0.height && Q.lt (Q.ofInt 15) f0.width) = true)
    (hsize1 : (Q.lt (Q.ofInt 15) f1.height && Q.lt (Q.ofInt 15) f1.width) = true)
    (hclamp0 : clampFig f0 = f0) (hclamp1 : clampFig f1 = f1)
    (hnc : figContains f0 f1 = false)
    (hov : figOverlaps f0 f1 = true)
    (harea : Q.beq (Q.mul f0.width f0.height) (Q.mul f1.width f1.height) = true) :
    checkAndFilterFigures [f0, f1] = [f1] := by
  have hle := Q.le_of_beq harea
  simp only [checkAndFilterFigures, List.filter, hsize0, hsize1, List.map,
    hclamp0, hclamp1, combos, List.map_nil, List.nil_append, figPass3,
    figPass4, hnc, hov, Bool.not_false, Bool.and_true, Bool.true_and,
    if_neg (by simp [hnc] : ¬figContains f0 f1 = true), hle, if_pos rfl,
    figMem, Fig.beq_self, Bool.true_or, if_pos, figRemove]

/-- Claim C4, witness for the amended theorem at the concrete pair. -/
theorem C4_equal_area_drops_first_witness :
    checkAndFilterFigures [figC4a, figC4b] = [figC4b] :=
  C4_equal_area_drops_first figC4a figC4b (by decide) (by decide) (by decide)
    (by decide) (by decide) (by decide) (by decide)

/-- `elemKeyLe` is total. -/
theorem elemKeyLe_total (a b : Elem7) : (elemKeyLe a b || elemKeyLe b a) = true := by
  simp only [elemKeyLe]
  rcases Nat.lt_trichotomy a.page b.page with h | h | h
  · simp [Nat.blt_eq, h]
  · have := Q.le_total' (Q.sub a.height a.y0) (Q.sub b.height b.y0)
    rcases Bool.or_eq_true_iff.mp this with h' | h' <;>
      simp [Nat.blt_eq, h, Nat.beq_eq, h']
  · simp [Nat.blt_eq, h]

/-- `elemKeyLe` is transitive. -/
theorem elemKeyLe_trans (a b c : Elem7) (hab : elemKeyLe a b = true)
    (hbc : elemKeyLe b c = true) : elemKeyLe a c = true := by
  simp only [elemKeyLe, Bool.or_eq_true_iff, Bool.and_eq_true_iff, Nat.blt_eq,
    Nat.beq_eq] at hab hbc ⊢
  rcases hab with h1 | ⟨h1, h1'⟩ <;> rcases hbc with h2 | ⟨h2, h2'⟩
  · exact Or.inl (Nat.lt_trans h1 h2)
  · exact Or.inl (h2 ▸ h1)
  · exact Or.inl (h1 ▸ h2)
  · exact Or.inr ⟨h1.trans h2, Q.le_trans' _ _ _ h1' h2'⟩

/-- Elements with one common key value are pairwise `elemKeyLe`. -/
theorem pairwise_of_same_key (pg : Nat) (k : Q) (l : List Elem7)
    (h : ∀ e ∈ l, (Nat.beq e.page pg && Q.beq (Q.sub e.height e.y0) k) = true) :
    List.Pairwise (fun a b => elemKeyLe a b = true) l := by
  induction l with
  | nil => exact List.Pairwise.nil
  | cons x xs ih =>
    refine List.Pairwise.cons (fun y hy => ?_) (ih (fun e he => h e (List.mem_cons_of_mem x he)))
    have hx := h x (List.mem_cons_self x xs)
    have hyk := h y (List.mem_cons_of_mem x hy)
    simp only [Bool.and_eq_true_iff, Nat.beq_eq] at hx hyk
    have hxy : Q.beq (Q.sub x.height x.y0) (Q.sub y.height y.y0) = true := by
      rw [Q.beq_iff_toRat]
      rw [Q.beq_iff_toRat] at hx hyk
      exact hx.2.trans hyk.2.symm
    simp only [elemKeyLe, Bool.or_eq_true_iff, Bool.and_eq_true_iff, Nat.blt_eq,
      Nat.beq_eq]
    exact Or.inr ⟨hx.1.trans hyk.1.symm, Q.le_of_beq hxy⟩

/-- Claim C7: merging figures, tables, paragraphs and chapters produces the
flat concatenation sorted stably by `(page.number, page.height - y0)`: the
result is a permutation of the concatenation, it is sorted with respect to
the key, and any two elements with equal keys keep their relative order from
the concatenation (stated via filtering by an arbitrary key value). -/
theorem C7_merge_sort (figures tables paragraphs chapters : List Elem7) :
    (mergeAllElements figures tables paragraphs chapters).Perm
        (figures ++ tables ++ paragraphs ++ chapters)
    ∧ List.Pairwise (fun a b => elemKeyLe a b = true)
        (mergeAllElements figures tables paragraphs chapters)
    ∧ ∀ (pg : Nat) (k : Q),
        (mergeAllElements figures tables paragraphs chapters).filter
            (fun e => Nat.beq e.page pg && Q.beq (Q.sub e.height e.y0) k)
          = (figures ++ tables ++ paragraphs ++ chapters).filter
            (fun e => Nat.beq e.page pg && Q.beq (Q.sub e.height e.y0) k) := by
  refine ⟨List.mergeSort_perm _ _,
    List.sorted_mergeSort elemKeyLe_trans elemKeyLe_total _, fun pg k => ?_⟩
  set flat := figures ++ tables ++ paragraphs ++ chapters with hflat
  set p : Elem7 → Bool :=
    fun e => Nat.beq e.page pg && Q.beq (Q.sub e.height e.y0) k with hp
  have hsub : (flat.filter p).Sublist (flat.mergeSort elemKeyLe) := by
    refine List.sublist_mergeSort elemKeyLe_trans elemKeyLe_total ?_
      (List.filter_sublist flat)
    exact pairwise_of_same_key pg k _ (fun e he => (List.mem_filter.mp he).2)
  have hsub2 : (flat.filter p).Sublist ((flat.mergeSort elemKeyLe).filter p) := by
    have := hsub.filter p
    rwa [List.filter_filter, (by
      funext e
      cases hpe : p e <;> simp [hpe] : (fun e => (p e && p e : Bool)) = p)] at this
  have hperm : ((flat.mergeSort elemKeyLe).filter p).Perm (flat.filter p) :=
    (List.mergeSort_perm flat elemKeyLe).filter p
  exact ((hsub2.eq_of_length hperm.length_eq.symm).symm : _)

/-- `Q.min` of a value with itself. -/
theorem qmin_self (a : Q) : Q.min a a = a := by simp [Q.min]

/-- A one-value list has one distinct value. -/
theorem qDistinctCount_singleton (r : Q) : qDistinctCount [r] = 1 := by
  simp [qDistinctCount, qDedup]

/-- The false-positive check on a single candidate: one page, break ratio 0,
one distinct rounded `y0`, so the `len == 1` branch pops the element and the
empty list is returned. -/
theorem cfphf_singleton (n : Nat) (e : ElemHF) :
    checkFalsePositiveHFTop n [e] = [] := by
  have h1 : elementLowPosDict [e] = [(e.pos.page, round4 e.pos.y0)] := by
    simp [elementLowPosDict, elementsPageDict, dictAdd, lowestPos, qmin_self]
  have hb2 : ((e.pos.page : Int) - (e.pos.page : Int) + 1 - 1) = 0 := by omega
  have hs : ((e.pos.page : Int) - (e.pos.page : Int) + 1) = 1 := by omega
  have hr : Q.le (Q.div (Q.ofInt 0) (Q.ofInt 1)) PAGES_MISSING = true := by decide
  show checkFalsePositiveHF n (1 + 1) [e] = []
  simp only [checkFalsePositiveHF, h1, List.headD, List.getLastD,
    List.getLast_singleton, List.map, List.length_cons, List.length_nil,
    Nat.zero_add, Nat.cast_one, hb2, hs, hr, qDistinctCount_singleton,
    ne_eq, not_true_eq_false, if_false, if_true, List.length_singleton]
  simp [hr]

/-- Filtering with an empty removal list keeps every element. -/
theorem filter_elMem_nil (l : List ElemHF) :
    l.filter (fun e => !(elMem e [])) = l := by
  induction l with
  | nil => rfl
  | cons x xs ih => simp [List.filter, elMem, ih]

/-- Claim C10: when the phase-1 candidate list of a band holds at most one
element, the false-positive check on a lone candidate returns the empty
list, and the document's element list is left unchanged by
`smart_page_crop_header_footer`. -/
theorem C10_lone_candidate_never_removed (pdf : PdfHF) (l : List ElemHF)
    (eh ef : ElemHF)
    (hh : headerCandidates pdf (elementsPageDict l) = [eh] ∨
      headerCandidates pdf (elementsPageDict l) = [])
    (hf : footerCandidates pdf (elementsPageDict l) = [ef] ∨
      footerCandidates pdf (elementsPageDict l) = []) :
    checkFalsePositiveHFTop pdf.pageCount [eh] = []
    ∧ smartPageCropHF pdf l = l := by
  refine ⟨cfphf_singleton _ _, ?_⟩
  unfold smartPageCropHF
  have hhead : (if headerCandidates pdf (elementsPageDict l) ≠ [] then
      checkFalsePositiveHFTop pdf.pageCount
        (headerCandidates pdf (elementsPageDict l))
    else headerCandidates pdf (elementsPageDict l)) = [] := by
    rcases hh with hh | hh <;> rw [hh] <;> simp [cfphf_singleton]
  have hfoot : (if footerCandidates pdf (elementsPageDict l) ≠ [] then
      checkFalsePositiveHFTop pdf.pageCount
        (footerCandidates pdf (elementsPageDict l))
    else footerCandidates pdf (elementsPageDict l)) = [] := by
    rcases hf with hf | hf <;> rw [hf] <;> simp [cfphf_singleton]
  simp only [hhead, hfoot, filter_elMem_nil]

/-- Claim C10, witness: a single-page document with one header-band element;
it is the lone candidate and survives. -/
theorem C10_lone_candidate_never_removed_witness :
    checkFalsePositiveHFTop (1 : Nat) [(⟨1, ⟨1, Q.ofInt 790, Q.ofInt 795⟩⟩ : ElemHF)] = []
    ∧ smartPageCropHF ⟨1, Q.ofInt 800⟩ [⟨1, ⟨1, Q.ofInt 790, Q.ofInt 795⟩⟩]
      = [⟨1, ⟨1, Q.ofInt 790, Q.ofInt 795⟩⟩] :=
  C10_lone_candidate_never_removed ⟨1, Q.ofInt 800⟩
    [⟨1, ⟨1, Q.ofInt 790, Q.ofInt 795⟩⟩] ⟨1, ⟨1, Q.ofInt 790, Q.ofInt 795⟩⟩
    ⟨1, ⟨1, Q.ofInt 790, Q.ofInt 795⟩⟩ (Or.inl (by decide)) (Or.inr (by decide))

/-- Claim C5: evaluation of the deletion step at the failing input.  The two
candidates sit on pages 1 and 3 with the same `y0`, the break ratio `1/3`
exceeds `0.15`, and the `del`-during-`enumerate` loop deletes the first
candidate but skips the second, so the list passed to the recursive call
still contains a candidate at the minimal rounded `y0`. -/
theorem C5_deletion_skips_min_candidate :
    Q.le (Q.div (Q.ofInt (((3 : Int) - 1 + 1) - 2))
        (Q.ofInt ((3 : Int) - 1 + 1))) PAGES_MISSING = false
    ∧ elementLowPosDict [elC5a, elC5b]
        = [(1, round4 (Q.ofInt 10)), (3, round4 (Q.ofInt 10))]
    ∧ delAtMin [elC5a, elC5b]
        (qMinList ((elementLowPosDict [elC5a, elC5b]).map (fun kv => kv.2)))
        = [elC5b]
    ∧ Q.beq (round4 elC5b.pos.y0)
        (qMinList ((elementLowPosDict [elC5a, elC5b]).map (fun kv => kv.2)))
        = true := by
  refine ⟨by decide, by decide, by decide, by decide⟩

/-- Claim C9, counterexample: a 10-page document with a dense band on pages
1-4 and a sparse band on pages 8-10.  The first application removes the
sparse band and keeps the dense one as false positives; the second
application then removes the dense band, so re-running the removal removes
further elements. -/
theorem C9_counterexample :
    smartPageCropHF pdfC9 (smartPageCropHF pdfC9 elsC9)
      ≠ smartPageCropHF pdfC9 elsC9 := by decide

/-- Claim C9, amended: header/footer removal preserves its fixed points: if
the first application removes nothing, a second application also removes
nothing. -/
theorem C9_fixed_point_preserved (pdf : PdfHF) (l : List ElemHF)
    (h : smartPageCropHF pdf l = l) :
    smartPageCropHF pdf (smartPageCropHF pdf l) = smartPageCropHF pdf l := by
  rw [h]; exact h

/-- Claim C9, witness for the amended theorem: the empty list is a fixed
point. -/
theorem C9_fixed_point_preserved_witness :
    smartPageCropHF pdfC9 (smartPageCropHF pdfC9 []) = smartPageCropHF pdfC9 [] :=
  C9_fixed_point_preserved pdfC9 [] (by decide)

/-- `a < b` is the negation of `b <= a` for the float embedding. -/
theorem Q.lt_eq_not_le (a b : Q) : Q.lt a b = !Q.le b a := by
  by_cases h : a.num * b.den < b.num * a.den
  · simp [Q.lt, Q.le, h, (by omega : ¬(b.num * a.den ≤ a.num * b.den))]
  · simp [Q.lt, Q.le, h, (by omega : b.num * a.den ≤ a.num * b.den)]

/-- The code's keep test is the negation of the claim's containment test. -/
theorem outsideOne_eq_not_fullyInside (e : BBoxE) (b : TB) :
    outsideOne e b = !fullyInside e b := by
  simp only [outsideOne, fullyInside, Q.lt_eq_not_le, Bool.not_and, Bool.or_assoc]

/-- The sequential per-element filters equal one filter by
"not fully inside any element". -/
theorem removeInElems_eq_filter (elems : List BBoxE) :
    ∀ boxes : List TB, removeInElems elems boxes
      = boxes.filter (fun b => !(elems.any (fun e => fullyInside e b))) := by
  induction elems with
  | nil => intro boxes; simp [removeInElems]
  | cons e rest ih =>
    intro boxes
    show removeInElems rest (boxes.filter (fun b => outsideOne e b)) = _
    rw [ih, List.filter_filter]
    have hfun : (fun b => !(rest.any (fun e' => fullyInside e' b)) && outsideOne e b)
        = fun b => !((e :: rest).any (fun e' => fullyInside e' b)) := by
      funext b
      simp [outsideOne_eq_not_fullyInside, List.any_cons, Bool.and_comm]
    rw [hfun]

/-- The noise loop keeps exactly the boxes that are not whitespace-only and
end in a newline, stripping that newline, provided no box triggers the
out-of-range access. -/
theorem noiseFilterPage_eq :
    ∀ boxes : List TB,
      (∀ b ∈ boxes, isSpaceOnly (boxText b) = true ∨ lastChar b ≠ none) →
      noiseFilterPage boxes = .ok
        ((boxes.filter (fun b => !(isSpaceOnly (boxText b))
          && decide (lastChar b = some '\n'))).map stripNL) := by
  intro boxes
  induction boxes with
  | nil => intro _; rfl
  | cons b rest ih =>
    intro h
    have hrest := ih (fun x hx => h x (List.mem_cons_of_mem b hx))
    by_cases hsp : isSpaceOnly (boxText b) = true
    · simp [noiseFilterPage, hsp, hrest, List.filter]
    · rcases h b (List.mem_cons_self b rest) with h1 | h1
      · exact absurd h1 hsp
      have hex : ∃ ll c, b.lines.getLast? = some ll ∧ ll.getLast? = some c := by
        cases hgl : b.lines.getLast? with
        | none =>
          exfalso
          apply h1
          simp [lastChar, List.getLastD_eq_getLast?, hgl]
        | some ll =>
          cases hc : ll.getLast? with
          | none =>
            exfalso
            apply h1
            simp [lastChar, List.getLastD_eq_getLast?, hgl, hc]
          | some c => exact ⟨ll, c, rfl, hc⟩
      obtain ⟨ll, c, hgl, hc⟩ := hex
      have hlc : lastChar b = some c := by
        simp [lastChar, List.getLastD_eq_getLast?, hgl, hc]
      by_cases hnc : c = '\n'
      · subst hnc
        have hstrip : stripNL b
            = { b with lines := b.lines.dropLast ++ [ll.dropLast] } := by
          simp [stripNL, List.getLastD_eq_getLast?, hgl]
        simp only [noiseFilterPage, hsp, if_false, hgl, hc, if_pos rfl, hrest,
          List.filter, hlc, decide_eq_true_eq, Bool.not_false, Bool.true_and]
        rw [← hstrip]
        rfl
      · simp only [noiseFilterPage, hsp, if_false, hgl, hc, if_neg hnc, hrest,
          List.filter, hlc]
        simp [hnc]

/-- Claim C1, amended: for a page whose boxes do not trigger the
out-of-range access, a text box is kept if and only if its bbox is not fully
inside any table/figure/rect bbox expanded by `TABLE_MARGIN = 8`, its text
is not whitespace-only, AND its last character is a newline; that trailing
newline is stripped from every kept box. -/
theorem C1_textbox_filter_amended (elems : List BBoxE) (boxes : List TB)
    (h : ∀ b ∈ boxes, isSpaceOnly (boxText b) = true ∨ lastChar b ≠ none) :
    extractFilterPage elems boxes = .ok
      ((boxes.filter (fun b => !(elems.any (fun e => fullyInside e b))
        && (!(isSpaceOnly (boxText b)) && decide (lastChar b = some '\n')))).map
        stripNL) := by
  unfold extractFilterPage
  rw [removeInElems_eq_filter]
  rw [noiseFilterPage_eq _ (fun b hb => h b (List.mem_of_mem_filter hb))]
  rw [List.filter_filter]
  have hfun : (fun b => (!(isSpaceOnly (boxText b)) && decide (lastChar b = some '\n'))
        && !(elems.any (fun e => fullyInside e b)))
      = fun b => !(elems.any (fun e => fullyInside e b))
        && (!(isSpaceOnly (boxText b)) && decide (lastChar b = some '\n')) := by
    funext b
    exact Bool.and_comm _ _
  rw [hfun]

/-- Claim C1, witness for the amended theorem: a box inside the expanded
table box is dropped, a whitespace-only box is dropped, and a kept box has
its trailing newline stripped. -/
theorem C1_textbox_filter_amended_witness :
    extractFilterPage [elemC1] [boxC1in, boxC1out, boxC1ws]
      = .ok (([boxC1in, boxC1out, boxC1ws].filter
          (fun b => !(([elemC1] : List BBoxE).any (fun e => fullyInside e b))
            && (!(isSpaceOnly (boxText b))
              && decide (lastChar b = some '\n')))).map stripNL) :=
  C1_textbox_filter_amended [elemC1] [boxC1in, boxC1out, boxC1ws] (by decide)

/-- Claim C1, counterexample: the box holding the single character `a` is
not inside any expanded region and is not whitespace-only, so the claim says
it is kept; the code drops it because its text does not end in a newline
(the append sits inside the `== '\n'` branch). -/
theorem C1_counterexample :
    (!(([] : List BBoxE).any (fun e => fullyInside e boxC1))
      && !(isSpaceOnly (boxText boxC1))) = true
    ∧ extractFilterPage [] [boxC1] = .ok [] := by
  refine ⟨by decide, by decide⟩

theorem splitDots_ne_nil (s : List Char) : splitDots s ≠ [] := by
  cases s with
  | nil => simp [splitDots]
  | cons c cs =>
    simp only [splitDots]
    cases h : splitDots cs with
    | nil => simp
    | cons r rs =>
      by_cases hc : c = '.' <;> simp [hc]

theorem splitDots_dotfree (x : List Char) (hx : ∀ c ∈ x, c ≠ '.') :
    splitDots x = [x] := by
  induction x with
  | nil => rfl
  | cons c cs ih =>
    have hc : c ≠ '.' := hx c (List.mem_cons_self c cs)
    have ihh := ih (fun d hd => hx d (List.mem_cons_of_mem c hd))
    simp only [splitDots, hc, if_false, reduceIte]
    rw [ihh]

theorem splitDots_append_dot (x : List Char) (t : List Char)
    (hx : ∀ c ∈ x, c ≠ '.') :
    splitDots (x ++ '.' :: t) = x :: splitDots t := by
  induction x with
  | nil =>
    simp only [List.nil_append, splitDots]
    cases h : splitDots t with
    | nil => exact absurd h (splitDots_ne_nil t)
    | cons r rs => simp
  | cons c cs ih =>
    have hc : c ≠ '.' := hx c (List.mem_cons_self c cs)
    have ihh := ih (fun d hd => hx d (List.mem_cons_of_mem c hd))
    simp only [List.cons_append, splitDots, hc, if_false, reduceIte,
      List.append_eq]
    rw [ihh]

theorem splitDots_joinDots (parts : List (List Char)) (hne : parts ≠ [])
    (hdf : ∀ x ∈ parts, ∀ c ∈ x, c ≠ '.') :
    splitDots (joinDots parts) = parts := by
  induction parts with
  | nil => exact absurd rfl hne
  | cons x xs ih =>
    cases xs with
    | nil =>
      show splitDots (joinDots [x]) = [x]
      exact splitDots_dotfree x (hdf x (List.mem_cons_self x []))
    | cons y ys =>
      show splitDots (x ++ '.' :: joinDots (y :: ys)) = x :: (y :: ys)
      rw [splitDots_append_dot x _ (hdf x (List.mem_cons_self x _))]
      rw [ih (by simp) (fun z hz => hdf z (List.mem_cons_of_mem x hz))]

theorem joinDots_concat (xs : List (List Char)) (y : List Char)
    (hne : xs ≠ []) : joinDots (xs ++ [y]) = joinDots xs ++ '.' :: y := by
  induction xs with
  | nil => exact absurd rfl hne
  | cons x rest ih =>
    cases rest with
    | nil => rfl
    | cons z zs =>
      show joinDots (x :: ((z :: zs) ++ [y])) = _
      have : joinDots ((z :: zs) ++ [y]) = joinDots (z :: zs) ++ '.' :: y :=
        ih (by simp)
      show x ++ '.' :: joinDots ((z :: zs) ++ [y]) = (x ++ '.' :: joinDots (z :: zs)) ++ '.' :: y
      rw [this, List.append_assoc]
      rfl

theorem digitChar_mem_natReprAux (fuel n : Nat) :
    ∀ c ∈ natReprAux fuel n, ∃ m, m < 10 ∧ c = digitChar m := by
  induction fuel generalizing n with
  | zero => intro c hc; simp [natReprAux] at hc
  | succ fuel ih =>
    intro c hc
    simp only [natReprAux] at hc
    by_cases h : n < 10
    · rw [if_pos h] at hc
      simp at hc
      exact ⟨n, h, hc⟩
    · rw [if_neg h] at hc
      rcases List.mem_append.mp hc with h1 | h1
      · exact ih (n / 10) c h1
      · simp at h1
        exact ⟨n % 10, Nat.mod_lt n (by omega), h1⟩

theorem natRepr_dotfree (n : Nat) : ∀ c ∈ natRepr n, c ≠ '.' := by
  intro c hc
  obtain ⟨m, hm, rfl⟩ := digitChar_mem_natReprAux (n + 1) n c hc
  interval_cases m <;> decide

theorem natRepr_ne_nil (n : Nat) : natRepr n ≠ [] := by
  show natReprAux (n + 1) n ≠ []
  simp only [natReprAux]
  by_cases h : n < 10 <;> simp [h]

theorem joinDots_map_natRepr_ne_nil (p : List Nat) (hp : p ≠ []) :
    joinDots (p.map natRepr) ≠ [] := by
  cases p with
  | nil => exact absurd rfl hp
  | cons a rest =>
    cases rest with
    | nil => exact natRepr_ne_nil a
    | cons b bs =>
      show natRepr a ++ '.' :: joinDots _ ≠ []
      simp

theorem cngLoop_get (f : Nat → OutlineCh → OutlineCh) :
    ∀ (chs : List OutlineCh) (j i : Nat) (ch : OutlineCh),
      chs.get? i = some ch → (cngLoop f chs j).get? i = some (f (j + i) ch) := by
  intro chs
  induction chs with
  | nil => intro j i ch h; simp at h
  | cons x xs ih =>
    intro j i ch h
    cases i with
    | zero => simp at h; subst h; rfl
    | succ i =>
      simp only [List.get?] at h
      have := ih (j + 1) i ch h
      show (cngLoop f (x :: xs) j).get? (i + 1) = _
      simp only [cngLoop, List.get?, this]
      congr 2
      omega

theorem pyIntNat_natRepr_one : pyIntNat (natRepr 1) = 1 := by decide

theorem newLevel_eq (p : List Nat) (i : Nat) :
    (if joinDots (p.map natRepr) = [] then natRepr (1 + i)
     else joinDots (p.map natRepr) ++ '.' :: natRepr (1 + i))
      = joinDots ((p ++ [i + 1]).map natRepr) := by
  cases p with
  | nil => simp [joinDots, Nat.add_comm]
  | cons a rest =>
    rw [if_neg (joinDots_map_natRepr_ne_nil (a :: rest) (by simp))]
    have hm2 : ((a :: rest) ++ [i + 1]).map natRepr
        = (a :: rest).map natRepr ++ [natRepr (i + 1)] := by simp
    rw [hm2, joinDots_concat ((a :: rest).map natRepr) _ (by simp)]
    rw [Nat.add_comm 1 i]

theorem virtLevel_eq (p : List Nat) (i : Nat) :
    joinDots ((p ++ [i + 1]).map natRepr) ++ ['.', '1']
      = joinDots (((p ++ [i + 1]) ++ [1]).map natRepr) := by
  have hm2 : ((p ++ [i + 1]) ++ [1]).map natRepr
      = (p ++ [i + 1]).map natRepr ++ [natRepr 1] := by simp
  rw [hm2, joinDots_concat _ _ (by simp)]
  have h1 : ('.' :: natRepr 1 : List Char) = ['.', '1'] := by decide
  rw [h1]

theorem getAt_nil (path : List Nat) : getAt [] path = none := by
  cases path with
  | nil => rfl
  | cons r rs => cases rs <;> rfl

theorem cng_at :
    ∀ (path : List Nat) (p : List Nat) (fuel : Nat) (forest : List OutlineCh)
      (node : OutlineCh),
      getAt forest path = some node → path.length ≤ fuel →
      ∃ node',
        getAt (chapterNumberGiver fuel forest
          (joinDots ((p ++ [1]).map natRepr))) path = some node'
        ∧ (match reMatchChapterNumber (pyStrip node.title) with
           | some m => node'.number = m
               ∧ node'.title = pyStrip (pyReplaceFirst (pyStrip node.title) m)
           | none => node'.number = virtPrefix
                 ++ joinDots ((p ++ path.map (fun j => j + 1)).map natRepr)
               ∧ node'.title = node.title) := by
  intro path
  induction path with
  | nil => intro p fuel forest node h _; simp [getAt] at h
  | cons i rest ih =>
    intro p fuel forest node h hfuel
    cases fuel with
    | zero => simp at hfuel
    | succ f =>
      have hdf : ∀ x ∈ (p ++ [1]).map natRepr, ∀ c ∈ x, c ≠ '.' := by
        intro x hx
        obtain ⟨k, _, rfl⟩ := List.mem_map.mp hx
        exact natRepr_dotfree k
      have hlev : splitDots (joinDots ((p ++ [1]).map natRepr))
          = (p ++ [1]).map natRepr :=
        splitDots_joinDots _ (by simp) hdf
      have hmap : (p ++ [1]).map natRepr = p.map natRepr ++ [natRepr 1] := by
        simp
      have hlast : ((p ++ [1]).map natRepr).getLastD [] = natRepr 1 := by
        rw [hmap, List.getLastD_concat]
      have hdropl : ((p ++ [1]).map natRepr).dropLast = p.map natRepr := by
        rw [hmap, List.dropLast_concat]
      simp only [chapterNumberGiver, hlev, hlast, hdropl, pyIntNat_natRepr_one]
      cases rest with
      | nil =>
        have hg : forest.get? i = some node := by simpa [getAt] using h
        refine ⟨_, cngLoop_get _ forest 0 i node hg, ?_⟩
        · cases node with
          | mk n t pos content =>
            simp only [Nat.zero_add, OutlineCh.title]
            cases hm : reMatchChapterNumber (pyStrip t) with
            | some m =>
              simp only [hm, OutlineCh.number, OutlineCh.title]
              trivial
            | none =>
              simp only [hm, OutlineCh.number, OutlineCh.title, List.map,
                newLevel_eq p i]
              trivial
      | cons r rs =>
        have hg : ∃ ch, forest.get? i = some ch
            ∧ getAt ch.content (r :: rs) = some node := by
          simp only [getAt] at h
          cases hgg : forest.get? i with
          | none => rw [hgg] at h; exact absurd h (by simp)
          | some ch => rw [hgg] at h; exact ⟨ch, rfl, h⟩
        obtain ⟨ch, hgg, hsub⟩ := hg
        cases ch with
        | mk n t pos content =>
          cases content with
          | nil =>
            rw [show OutlineCh.content (OutlineCh.mk n t pos []) = [] from rfl,
              getAt_nil] at hsub
            exact absurd hsub (by simp)
          | cons c cs =>
            have ihh := ih (p ++ [i + 1]) f (c :: cs) node
              (by simpa [OutlineCh.content] using hsub)
              (by simpa using Nat.le_of_succ_le_succ hfuel)
            obtain ⟨node', hget', hspec'⟩ := ihh
            refine ⟨node', ?_, ?_⟩
            · show getAt (cngLoop _ forest 0) (i :: r :: rs) = some node'
              simp only [getAt]
              rw [cngLoop_get _ forest 0 i _ hgg]
              simp only [Nat.zero_add]
              cases hm : reMatchChapterNumber (pyStrip t) <;>
                simp only [hm, OutlineCh.content] <;>
                · rw [newLevel_eq p i, virtLevel_eq p i]
                  exact hget'
            · cases hmm : reMatchChapterNumber (pyStrip node.title) with
              | some m => rw [hmm] at hspec'; exact hspec'
              | none =>
                rw [hmm] at hspec'
                refine ⟨?_, hspec'.2⟩
                rw [hspec'.1]
                congr 2
                simp [List.append_assoc]

/-- Claim C2: for every outline node (addressed by an index path), if the
stripped title has a leading chapter-number-pattern match, that matched
prefix becomes the node's `number` and is stripped from the `title`;
otherwise the node's `number` is `virt.` followed by the 1-based dot-joined
path of the node's position in the outline tree.  The numbering starts from
virtual level `'1'` as in `get_outline`; `fuel` bounds the outline depth. -/
theorem C2_chapter_numbering (fuel : Nat) (forest : List OutlineCh)
    (path : List Nat) (node : OutlineCh)
    (h : getAt forest path = some node) (hfuel : path.length ≤ fuel) :
    ∃ node', getAt (chapterNumberGiver fuel forest ['1']) path = some node'
      ∧ (match reMatchChapterNumber (pyStrip node.title) with
         | some m => node'.number = m
             ∧ node'.title = pyStrip (pyReplaceFirst (pyStrip node.title) m)
         | none => node'.number
               = virtPrefix ++ joinDots ((path.map (fun j => j + 1)).map natRepr)
             ∧ node'.title = node.title) := by
  have hv : joinDots ((([] : List Nat) ++ [1]).map natRepr) = ['1'] := by decide
  have hmain := cng_at path [] fuel forest node h hfuel
  rw [hv] at hmain
  simpa using hmain

/-- Claim C2, witness: in the concrete forest the node at path `[1, 0]`
("Details", child of the unnumbered "Overview") receives virtual number
`virt.2.1`, while its title stays. -/
theorem C2_chapter_numbering_witness :
    ∃ node', getAt (chapterNumberGiver 2 forestC2 ['1']) [1, 0] = some node'
      ∧ (match reMatchChapterNumber (pyStrip nodeC2.title) with
         | some m => node'.number = m
             ∧ node'.title = pyStrip (pyReplaceFirst (pyStrip nodeC2.title) m)
         | none => node'.number
               = virtPrefix ++ joinDots (([1, 0].map (fun j => j + 1)).map natRepr)
             ∧ node'.title = nodeC2.title) :=
  C2_chapter_numbering 2 forestC2 [1, 0] nodeC2 (by rfl) (by decide)

theorem flagsInv_mono {flags : AnnoFlags} {i j : Nat} (h : flagsInv flags i)
    (hij : i ≤ j) : flagsInv flags j := by
  rcases h with ⟨h1, h2⟩ | ⟨s, e, h1, h2, h3, h4⟩
  · exact Or.inl ⟨h1, h2⟩
  · exact Or.inr ⟨s, e, h1, h2, h3, by omega⟩

theorem marker_flags_cases {idxChar : Nat} {ch : LTItem} {objs : List LTItem}
    {anno : AnnoRec} {flags flags1 : AnnoFlags} {c : Bool}
    (h : marker idxChar ch objs anno flags = Except.ok (flags1, c)) :
    flags1 = flags ∨
    flags1 = ⟨(match flags.startIdx with
               | none => some idxChar
               | some s => some s), some (idxChar + 1)⟩ := by
  cases ch <;> simp only [marker] at h <;> (repeat' split at h) <;> simp_all

theorem marker_flagsInv {idxChar : Nat} {ch : LTItem} {objs : List LTItem}
    {anno : AnnoRec} {flags flags1 : AnnoFlags} {c : Bool}
    (hinv : flagsInv flags idxChar)
    (h : marker idxChar ch objs anno flags = Except.ok (flags1, c)) :
    flagsInv flags1 (idxChar + 1) := by
  rcases marker_flags_cases h with h1 | h1
  · exact h1 ▸ flagsInv_mono hinv (by omega)
  · subst h1
    rcases hinv with ⟨h1, h2⟩ | ⟨s, e, h1, h2, h3, h4⟩
    · exact Or.inr ⟨idxChar, idxChar + 1, by simp [h1], rfl, by omega, by omega⟩
    · exact Or.inr ⟨s, idxChar + 1, by simp [h1], rfl, by omega, by omega⟩

theorem renderLink_bounds {flags : AnnoFlags} {anno : AnnoRec}
    {dests : Option (List (List Char × DestEntry))} {charCounter : Nat}
    {link : LinkR} {flags2 : AnnoFlags} {s e : Nat}
    (hs : flags.startIdx = some s) (he : flags.stopIdx = some e) (hse : s ≤ e)
    (h : renderLink flags anno dests charCounter = Except.ok (link, flags2)) :
    link.idxStart ≤ link.idxStop ∧ link.idxStop ≤ e + charCounter ∧
      flags2 = ⟨none, none⟩ := by
  simp only [renderLink, hs, he] at h
  split at h
  · exact absurd h (by simp)
  · rcases h
    refine ⟨?_, ?_, rfl⟩ <;> · simp only; split <;> omega

theorem annosScannerGo_bounds (dests : Option (List (List Char × DestEntry)))
    (annosLine : List AnnoRec) (charCounter : Nat) (objs : List LTItem) :
    ∀ (rest : List LTItem) (idxChar idxAnno : Nat) (flags : AnnoFlags)
      (links out : List LinkR),
      idxChar + rest.length = objs.length →
      flagsInv flags idxChar →
      (∀ l ∈ links, linkBound objs.length charCounter l) →
      annosScannerGo dests annosLine charCounter objs rest idxChar idxAnno
        flags links = Except.ok out →
      ∀ l ∈ out, linkBound objs.length charCounter l := by
  intro rest
  induction rest with
  | nil =>
    intro i a f links out hlen hinv hl h
    simp only [annosScannerGo] at h
    cases h
    exact hl
  | cons ch rest ih =>
    intro i a f links out hlen hinv hl h
    simp only [annosScannerGo] at h
    split at h
    · exact ih (i + 1) a f links out (by simp at hlen; omega)
        (flagsInv_mono hinv (by omega)) hl h
    next anno hga =>
      split at h
      next e hm => exact absurd h (by simp)
      next flags1 c hm =>
        have hinv1 : flagsInv flags1 (i + 1) := marker_flagsInv hinv hm
        split at h
        · split at h
          · split at h
            next e hr => exact absurd h (by simp)
            next link flags2 hr =>
              rcases hinv1 with ⟨h1, h2⟩ | ⟨s, e, h1, h2, h3, h4⟩
              · simp [h1, h2] at *
              · have hb := renderLink_bounds h1 h2 (by omega) hr
                refine ih (i + 1) (a + 1) flags2 (links ++ [link]) out
                  (by simp at hlen; omega)
                  (hb.2.2 ▸ Or.inl ⟨rfl, rfl⟩) ?_ h
                intro l hml
                rcases List.mem_append.mp hml with hml | hml
                · exact hl l hml
                · have : l = link := by simpa using hml
                  subst this
                  refine ⟨hb.1, ?_⟩
                  have h5 := hb.2.1
                  have h6 : i + 1 ≤ objs.length := by simp at hlen; omega
                  exact le_trans h5 (by omega)
          · exact ih (i + 1) a flags1 links out (by simp at hlen; omega)
              hinv1 hl h
        · exact ih (i + 1) a flags1 links out (by simp at hlen; omega)
            hinv1 hl h

theorem annosScanner_bounds {dests : Option (List (List Char × DestEntry))}
    {line : LTLine} {annosLine : List AnnoRec} {charCounter : Nat}
    {out : List LinkR}
    (h : annosScanner dests line annosLine charCounter = Except.ok out) :
    ∀ l ∈ out, linkBound line.objs.length charCounter l :=
  annosScannerGo_bounds dests annosLine charCounter line.objs line.objs 0 0
    ⟨none, none⟩ [] out (by simp) (Or.inl ⟨rfl, rfl⟩) (by simp) h

theorem elcLines_bounds (dests : Option (List (List Char × DestEntry)))
    (annoTB : List AnnoRec) :
    ∀ (lines : List LTLine) (cc : Nat) (links out : List LinkR),
      (∀ l ∈ links, l.idxStart ≤ l.idxStop ∧ l.idxStop ≤ cc) →
      elcLines dests annoTB lines cc links = Except.ok out →
      ∀ l ∈ out, l.idxStart ≤ l.idxStop ∧ l.idxStop ≤ cc + linesLen lines := by
  intro lines
  induction lines with
  | nil =>
    intro cc links out hl h
    simp only [elcLines] at h
    cases h
    intro l hm
    exact ⟨(hl l hm).1, by have := (hl l hm).2; simp [linesLen]; omega⟩
  | cons line rest ih =>
    intro cc links out hl h
    simp only [elcLines] at h
    split at h
    · intro l hm
      have h2 := ih (cc + line.objs.length) links out
        (fun l hml => ⟨(hl l hml).1, by have := (hl l hml).2; omega⟩) h l hm
      exact ⟨h2.1, by simp [linesLen] at h2 ⊢; omega⟩
    · rcases hs : annosScanner dests line (pySortAnnos _) cc
        with e | ls <;> rw [hs] at h
      · exact absurd h (by simp)
      · intro l hm
        have hnew : ∀ l ∈ links ++ ls,
            l.idxStart ≤ l.idxStop ∧ l.idxStop ≤ cc + line.objs.length := by
          intro l hml
          rcases List.mem_append.mp hml with hml | hml
          · exact ⟨(hl l hml).1, by have := (hl l hml).2; omega⟩
          · have hb := annosScanner_bounds hs l hml
            exact ⟨hb.1, by have := hb.2; unfold linkBound at hb; omega⟩
        have h2 := ih (cc + line.objs.length) (links ++ ls) out hnew h l hm
        exact ⟨h2.1, by simp [linesLen] at h2 ⊢; omega⟩

theorem tblText_length (b : TBL) : (tblText b).length = linesLen b.lines := by
  simp only [tblText, linesLen]
  induction b.lines with
  | nil => rfl
  | cons line rest ih => simp [ih]

/-- C6 (Link index validity): whenever phase-A link extraction over a text
box succeeds, every produced link satisfies
`idx_start ≤ idx_stop ≤ len(text)` where the text is the concatenation of
the box's lines' characters (`idx_start`, `idx_stop` are `Nat`, hence
`0 ≤ idx_start` holds trivially). -/
theorem C6_link_index_validity (dests : Option (List (List Char × DestEntry)))
    (annosCat : List (Nat × List AnnoRec)) (box : TBL) (pageNumber : Nat)
    (links : List LinkR)
    (h : extractLinkedChars dests annosCat box pageNumber = Except.ok links) :
    ∀ l ∈ links, l.idxStart ≤ l.idxStop ∧ l.idxStop ≤ (tblText box).length := by
  simp only [extractLinkedChars] at h
  split at h
  · cases h; simp
  · split at h
    · cases h; simp
    · intro l hm
      have h2 := elcLines_bounds dests _ box.lines 0 [] links (by simp) h l hm
      exact ⟨h2.1, by rw [tblText_length]; omega⟩

/-- The C6 theorem applied to a concrete one-line textbox whose two
characters sit inside a single link annotation: extraction yields exactly
one link, with bounds `0 ≤ 2 ≤ 3`. -/
theorem C6_link_index_validity_witness :
    extractLinkedChars none [(1, [annoC6])] boxC6 1 = Except.ok [linkC6] ∧
    linkC6.idxStart ≤ linkC6.idxStop ∧
      linkC6.idxStop ≤ (tblText boxC6).length :=
  ⟨by decide,
   C6_link_index_validity none [(1, [annoC6])] boxC6 1 [linkC6] (by decide)
     linkC6 (List.mem_singleton.mpr rfl)⟩

/-- C8 (Malformed-catalog errors): outline extraction fails with the coded
typed errors: (1) a truthy `Outlines` dictionary without a `First` key
raises `ValueError`; at any outline node, (2) coexisting `A` and `Dest`
keys raise `ValueError`, (3) a node with neither raises `ValueError`, and
(4)/(5) an explicit-destination list headed by anything other than an
indirect reference raises `RuntimeError`, both under an `A`/GoTo action
and under a direct `Dest` key. -/
theorem C8_malformed_catalog_errors (heap : List (Nat × OutlineObjRec))
    (pages : List (Nat × Nat))
    (desDict : Option (List (List Char × DestEntry8)))
    (ob : OutlinesObj) (node : OutlineObjRec) (fuel : Nat)
    (acc : List ONode) :
    (ob.nonEmpty = true → ob.first = none →
      getOutline (some ob) heap desDict pages
        = Except.error (.valueError "Key \"First\" is not in Outlines")) ∧
    (node.a.isSome = true → node.dest.isSome = true →
      resolveOutline heap pages desDict (fuel + 1) node acc
        = Except.error (.valueError "Key A and Dest can not coexist in outline.")) ∧
    (node.a = none → node.dest = none →
      resolveOutline heap pages desDict (fuel + 1) node acc
        = Except.error (.valueError "No key A and Dest in outline.")) ∧
    (∀ act d0 ds, node.a = some act → node.dest = none →
      act.s = goToName → act.d = DVal.expl (d0 :: ds) →
      (∀ objid mediaTop, d0 ≠ DItem.ref objid mediaTop) →
      resolveOutline heap pages desDict (fuel + 1) node acc
        = Except.error (.runtimeError pageRefErrMsg)) ∧
    (∀ dv d0 ds, node.a = none → node.dest = some dv →
      dv = DVal.expl (d0 :: ds) →
      (∀ objid mediaTop, d0 ≠ DItem.ref objid mediaTop) →
      resolveOutline heap pages desDict (fuel + 1) node acc
        = Except.error (.runtimeError pageRefErrMsg)) := by
  refine ⟨?_, ?_, ?_, ?_, ?_⟩
  · intro h1 h2
    simp [getOutline, h1, h2]
  · intro h1 h2
    simp [resolveOutline, h1, h2]
  · intro h1 h2
    simp [resolveOutline, h1, h2]
  · intro act d0 ds h1 h2 h3 h4 h5
    have hd0 : destResOfDVal pages act.d = Except.error (.runtimeError pageRefErrMsg) := by
      rw [h4]
      cases d0 with
      | ref objid mediaTop => exact absurd rfl (h5 objid mediaTop)
      | lit nm => simp [destResOfDVal]
      | num v => simp [destResOfDVal]
    simp [resolveOutline, h1, h2, h3, hd0]
  · intro dv d0 ds h1 h2 h3 h4
    have hd0 : destResOfDVal pages dv = Except.error (.runtimeError pageRefErrMsg) := by
      rw [h3]
      cases d0 with
      | ref objid mediaTop => exact absurd rfl (h4 objid mediaTop)
      | lit nm => simp [destResOfDVal]
      | num v => simp [destResOfDVal]
    simp [resolveOutline, h1, h2, hd0]

/-- The C8 theorem applied at concrete malformed inputs: each error
condition instantiated with a one-node outline. -/
theorem C8_malformed_catalog_errors_witness :
    getOutline (some obC8) [] none []
      = Except.error (.valueError "Key \"First\" is not in Outlines") ∧
    resolveOutline [] [] none 1 nodeBothC8 []
      = Except.error (.valueError "Key A and Dest can not coexist in outline.") ∧
    resolveOutline [] [] none 1 nodeNeitherC8 []
      = Except.error (.valueError "No key A and Dest in outline.") ∧
    resolveOutline [] [] none 1 nodeBadA8 []
      = Except.error (.runtimeError pageRefErrMsg) ∧
    resolveOutline [] [] none 1 nodeBadD8 []
      = Except.error (.runtimeError pageRefErrMsg) :=
  ⟨(C8_malformed_catalog_errors [] [] none obC8 nodeBothC8 0 []).1 rfl rfl,
   (C8_malformed_catalog_errors [] [] none obC8 nodeBothC8 0 []).2.1 rfl rfl,
   (C8_malformed_catalog_errors [] [] none obC8 nodeNeitherC8 0 []).2.2.1 rfl rfl,
   (C8_malformed_catalog_errors [] [] none obC8 nodeBadA8 0 []).2.2.2.1
     ⟨goToName, DVal.expl [DItem.num (Q.ofInt 1)]⟩ (DItem.num (Q.ofInt 1)) []
     rfl rfl rfl rfl (fun _ _ h => by cases h),
   (C8_malformed_catalog_errors [] [] none obC8 nodeBadD8 0 []).2.2.2.2
     (DVal.expl [DItem.lit ['F', 'i', 't']]) (DItem.lit ['F', 'i', 't']) []
     rfl rfl rfl (fun _ _ h => by cases h)⟩
